import Mathlib

/-!
Verification development for the `price-watch` offer extraction-and-filtering
pipeline (`src/adapters/websearch.py`, `src/main.py`).

The Python source is shallowly embedded below.  Modeling conventions:

* Python floats are modeled as exact rationals (`ℚ`); all the numerals the
  pipeline manipulates are short decimal strings, far below any IEEE-754
  precision concern.
* Python `None`-or-value results are modeled as `Option`.
* Python truthiness (`x or y`, `if x:`) is modeled explicitly per type
  (`0`, `""`, `[]`, `{}`, `None` are falsy).
* Network collaborators (Google CSE pages, the document fetch, the headless
  renderer) are modeled as explicit inputs/oracles; configured regex patterns
  other than the hard-coded `PRICE_RE` are modeled as opaque predicates
  `String → Bool`, since their semantics never matters to the claims.
* The module-global `_RENDER_COUNT` is modeled by explicit state passing: the
  counter value enters `search` and the final value is returned.
-/

namespace PriceWatch

/-- Models Python `str.lower` for the characters this pipeline manipulates:
ASCII letters plus the Polish/Czech letters appearing in the currency tokens
(`Ł`, `Č`).  Other code points are left unchanged. -/
def pyLowerChar (c : Char) : Char :=
  if c = 'Ł' then 'ł' else if c = 'Č' then 'č' else c.toLower

/-- Models Python `str.lower` (character-wise, see `pyLowerChar`). -/
def pyLower (s : String) : String :=
  String.mk (s.data.map pyLowerChar)

/-- Does `needle` occur as a prefix of `hay`. -/
def isListAt : List Char → List Char → Bool
  | [], _ => true
  | _ :: _, [] => false
  | a :: as, b :: bs => a = b && isListAt as bs

/-- Does `needle` occur as a contiguous sublist of `hay`; models Python
substring containment (`needle in hay`), so the empty needle matches. -/
def isSubChars (needle : List Char) : List Char → Bool
  | [] => isListAt needle []
  | c :: t => isListAt needle (c :: t) || isSubChars needle t

/-- Models Python `needle in hay` on strings. -/
def isSubstrS (needle hay : String) : Bool :=
  isSubChars needle.data hay.data

/-- Models Python `s.endswith(suffix)` (every string ends with `""`). -/
def pyEndsWith (s suffix : String) : Bool :=
  suffix.data.isSuffixOf s.data

/-- Models Python regex `\s` (whitespace) for the characters in play:
ASCII whitespace plus the no-break space U+00A0.  (Python's Unicode `\s`
also covers rarer separators that never occur in this pipeline's data.) -/
def pyIsSpaceChar (c : Char) : Bool :=
  c = ' ' || c = '\t' || c = '\n' || c = '\r' ||
  c = Char.ofNat 11 || c = Char.ofNat 12 || c = Char.ofNat 160

/-- Models Python regex word characters (`\w`, used by `\b`) for the
alphabets in play: ASCII alphanumerics, underscore, and the Polish/Czech
letters occurring around the currency tokens.  `€` is not a word char. -/
def pyIsWordChar (c : Char) : Bool :=
  c.isAlphanum || c = '_' ||
  c = 'ł' || c = 'Ł' || c = 'č' || c = 'Č' || c = 'ż' || c = 'ó' ||
  c = 'ą' || c = 'ę' || c = 'ś' || c = 'ź' || c = 'ć' || c = 'ń' ||
  c = 'ž' || c = 'š' || c = 'é' || c = 'á'

/-- Numeric value of a list of ASCII digits, most significant first. -/
def digitsToNat (ds : List Char) : Nat :=
  ds.foldl (fun a c => a * 10 + (c.toNat - 48)) 0

/-- Exponent suffix of a Python float literal: empty, or `e`/`E` followed by
an optionally signed digit string.  Returns the decimal exponent. -/
def expFactor : List Char → Option Int
  | [] => some 0
  | 'e' :: r => expFactorSigned r
  | 'E' :: r => expFactorSigned r
  | _ => none
where
  /-- Signed exponent digits after `e`. -/
  expFactorSigned : List Char → Option Int
    | '+' :: r => expFactorDigits r
    | '-' :: r => (expFactorDigits r).map (fun e => -e)
    | r => expFactorDigits r
  /-- Bare exponent digits. -/
  expFactorDigits (r : List Char) : Option Int :=
    if r ≠ [] ∧ r.all Char.isDigit then some (Int.ofNat (digitsToNat r)) else none

/-- Rational multiplication through `mkRat`.  Extensionally equal to `*`
(see `ratMul_eq`); used because Batteries marks `Rat.mul` `@[irreducible]`,
which blocks kernel evaluation of concrete instances. -/
def ratMul (a b : ℚ) : ℚ :=
  mkRat (a.num * b.num) (a.den * b.den)

theorem ratMul_eq (a b : ℚ) : ratMul a b = a * b := by
  unfold ratMul
  rw [Rat.mkRat_eq_div]
  push_cast
  conv_rhs => rw [← Rat.num_div_den a, ← Rat.num_div_den b]
  rw [div_mul_div_comm]

/-- Scale a rational by `10 ^ e` (rationals are built with `mkRat`, whose
arithmetic the kernel evaluates). -/
def applyExp (q : ℚ) (e : Int) : ℚ :=
  if 0 ≤ e then ratMul q (mkRat (Int.ofNat (Nat.pow 10 e.toNat)) 1)
  else ratMul q (mkRat 1 (Nat.pow 10 (-e).toNat))

/-- Unsigned part of Python `float(string)`: digits, optional point and
fraction digits (at least one digit overall), optional exponent. -/
def parseUnsignedFloat (cs : List Char) : Option ℚ :=
  let intPart := cs.takeWhile Char.isDigit
  let rest := cs.dropWhile Char.isDigit
  match rest with
  | '.' :: r2 =>
    let frac := r2.takeWhile Char.isDigit
    let r3 := r2.dropWhile Char.isDigit
    if intPart = [] ∧ frac = [] then none
    else
      (expFactor r3).map (fun e =>
        applyExp
          (mkRat (Int.ofNat (digitsToNat intPart * Nat.pow 10 frac.length + digitsToNat frac))
            (Nat.pow 10 frac.length)) e)
  | r =>
    if intPart = [] then none
    else (expFactor r).map (fun e => applyExp (mkRat (Int.ofNat (digitsToNat intPart)) 1) e)

/-- Models Python `float(string)` on finite decimal notation (strips
surrounding whitespace, optional sign; `inf`/`nan` forms are irrelevant
here and rejected). -/
def pyFloat (s : String) : Option ℚ :=
  let cs := ((s.data.dropWhile pyIsSpaceChar).reverse.dropWhile pyIsSpaceChar).reverse
  match cs with
  | '-' :: r => (parseUnsignedFloat r).map (fun q => -q)
  | '+' :: r => parseUnsignedFloat r
  | r => parseUnsignedFloat r

/-- Embeds `_to_float` (websearch.py:27-31): replace NBSP by space, drop
spaces, turn the comma decimal separator into a period, then parse;
`None` on failure. -/
def _to_float (s : String) : Option ℚ :=
  pyFloat (String.mk
    (((s.data.map (fun c => if c = Char.ofNat 160 then ' ' else c)).filter
        (fun c => c ≠ ' ')).map (fun c => if c = ',' then '.' else c)))

/-- Models Python `min(l)` guarded by `if l else None`. -/
def pyMin : List ℚ → Option ℚ
  | [] => none
  | x :: xs => some (xs.foldl min x)

/-- Models Python `a or b` on float-or-None values: `a` when truthy
(`Some` of a nonzero value), else `b`.  Note `0.0` is falsy. -/
def pyOrQ (a b : Option ℚ) : Option ℚ :=
  match a with
  | some q => if q ≠ 0 then some q else b
  | none => b

/-- The currency-rate table (`ctx["currency"]`), as consumed by
`_convert_to_pln`: enable flags and optional numeric rates.  A rate entry
is "truthy" in Python when present and nonzero (`rateTruthy`). -/
structure Rates where
  parse_eur : Bool
  parse_czk : Bool
  eur_to_pln : Option ℚ
  czk_to_pln : Option ℚ
deriving DecidableEq

/-- Python truthiness of `rates.get(key)` for a numeric rate entry. -/
def rateTruthy : Option ℚ → Bool
  | some r => r ≠ 0
  | none => false

/-- Embeds `_convert_to_pln` (websearch.py:33-45): reference-currency tokens
pass through; euro and crown tokens convert only when the enable flag and a
(truthy) rate are configured; everything else is `None`. -/
def _convert_to_pln (value : ℚ) (unit : String) (rates : Rates) : Option ℚ :=
  let u := pyLower unit
  if u = "zł" ∨ u = "pln" then some value
  else if u = "€" ∨ u = "eur" then
    if rates.parse_eur && rateTruthy rates.eur_to_pln then
      some (ratMul value (rates.eur_to_pln.getD 0))
    else none
  else if u = "kč" ∨ u = "kc" ∨ u = "czk" then
    if rates.parse_czk && rateTruthy rates.czk_to_pln then
      some (ratMul value (rates.czk_to_pln.getD 0))
    else none
  else none

/-! ### Structured-data (JSON-LD) extraction

`_extract_from_jsonld` scans `<script type="application/ld+json">` blocks,
parses each with `json.loads` (with a line-by-line recovery fallback), and
walks the parsed values with an explicit stack.  The HTML scanning and JSON
parsing are standard-library I/O-free plumbing; the embedding takes a
document's structured-data blocks as already-parsed JSON values (a block
recovered line-by-line enters as a `Json.arr` of its chunks, exactly the
`list` Python builds).  The stack walk itself is embedded verbatim. -/

/-- Parsed JSON values as produced by `json.loads`.  Numbers are exact
rationals; object keys are unique (as `json.loads` guarantees). -/
inductive Json where
  | null
  | bool (b : Bool)
  | num (q : ℚ)
  | str (s : String)
  | arr (items : List Json)
  | obj (fields : List (String × Json))

/-- Python truthiness of a parsed JSON value. -/
def jsonTruthy : Json → Bool
  | .null => false
  | .bool b => b
  | .num q => q != 0
  | .str s => s != ""
  | .arr l => !l.isEmpty
  | .obj l => !l.isEmpty

/-- Models `node.get(key)` on a parsed JSON object. -/
def getField : List (String × Json) → String → Option Json
  | [], _ => none
  | (k, v) :: rest, key => if k = key then some v else getField rest key

/-- Models Python `a or b` where `a`, `b` are `dict.get` results:
`a` when truthy, else `b` (which is returned even when falsy). -/
def pyOrJ (a b : Option Json) : Option Json :=
  match a with
  | some v => if jsonTruthy v then some v else b
  | none => b

/-- Embeds `(node.get("@type") or node.get("type") or "").lower()`
(websearch.py:105).  The Python `or` chain yields its first truthy
operand, else the last `get` result (possibly falsy), else `""`; a falsy
chain value is replaced by `""` before `.lower()` ever runs.  When the
chain's value is truthy and *not a string* — e.g. the common list-valued
`"@type": ["Product"]` — `.lower()` raises `AttributeError`, which
propagates out of `_extract_from_jsonld` and out of `search`; that raise
is `.error ()`. -/
def typeTag (fs : List (String × Json)) : Except Unit String :=
  match pyOrJ (getField fs "@type") (getField fs "type") with
  | some v =>
    if jsonTruthy v then
      match v with
      | .str s => .ok (pyLower s)
      | _ => .error ()
    else .ok ""
  | none => .ok ""

/-- The websearch.py:106 candidate-offer-node test on the lowered tag. -/
def isOfferTypeTag (t : String) : Bool :=
  isSubstrS "product" t || isSubstrS "offer" t || isSubstrS "aggregateoffer" t

/-- Embeds `_to_float(str(x))` for a parsed JSON value `x`: JSON numbers
round-trip through `str`/`float` exactly; strings go through `_to_float`;
`str()` of booleans and containers never parses as a float. -/
def pyStrOfJsonToFloat : Json → Option ℚ
  | .num q => some q
  | .str s => _to_float s
  | _ => none

/-- Embeds `str(cur)` as fed to `_convert_to_pln`: a non-string truthy
currency value never stringifies to a recognized unit token, so any
placeholder unrecognized by the converter is faithful. -/
def pyStrOfJsonUnit : Json → String
  | .str s => s
  | _ => "?"

/-- The tail of websearch.py:111-120 once a price value `pj` has been
selected: `_to_float(str(price))`, read `priceCurrency`/`pricecurrency`
(Python `or`, then `if cur:`), convert — a missing or falsy currency means
the value is already in the reference currency.  Returns the (0- or
1-element) list of prices appended for this node. -/
def priceFromVal (pj : Json) (fs : List (String × Json)) (rates : Rates) : List ℚ :=
  match pyStrOfJsonToFloat pj with
  | none => []
  | some val =>
    match pyOrJ (getField fs "priceCurrency") (getField fs "pricecurrency") with
    | some cj =>
      if jsonTruthy cj then
        match _convert_to_pln val (pyStrOfJsonUnit cj) rates with
        | some pln => [pln]
        | none => []
      else [val]
    | none => [val]

/-- Embeds websearch.py:110-120 — reading a price from a candidate offer
node without a nested `offers` field: `price or lowPrice or highPrice`
(Python `or`, so the first *truthy* value wins), the `if price:` gate,
then `priceFromVal`. -/
def readOfferPrices (fs : List (String × Json)) (rates : Rates) : List ℚ :=
  match pyOrJ (getField fs "price") (pyOrJ (getField fs "lowPrice") (getField fs "highPrice")) with
  | none => []
  | some pj => if jsonTruthy pj then priceFromVal pj fs rates else []

/-- Modelled from the spec: the spec's reading rule "read price from
`price`, else `lowPrice`, else `highPrice` (first present wins)" — selection
by key *presence* instead of the code's Python-`or` selection by
*truthiness* — with the downstream value handling unchanged.  Used only to
exhibit where the two rules part ways. -/
def readOfferPricesSpec (fs : List (String × Json)) (rates : Rates) : List ℚ :=
  match ((getField fs "price").orElse fun _ =>
      (getField fs "lowPrice").orElse fun _ => getField fs "highPrice") with
  | none => []
  | some pj => priceFromVal pj fs rates

/-- Is a key absent or bound to a Python-falsy value. -/
def fieldFalsy (fs : List (String × Json)) (k : String) : Bool :=
  match getField fs k with
  | none => true
  | some v => !jsonTruthy v

/-- `isinstance(v, (dict, list))` — the push test of the traversal. -/
def isContainer : Json → Bool
  | .obj _ => true
  | .arr _ => true
  | _ => false

mutual
/-- Weight of a JSON value, used to bound the number of iterations of the
stack walk (object children count twice because a `product`/`offer` node's
`offers` value is pushed both by the offers branch and by the generic
child-push loop). -/
def jw : Json → Nat
  | .null => 1
  | .bool _ => 1
  | .num _ => 1
  | .str _ => 1
  | .arr xs => 1 + jwList xs
  | .obj fs => 1 + 2 * jwFields fs
/-- Total weight of a list of JSON values (a traversal stack). -/
def jwList : List Json → Nat
  | [] => 0
  | x :: xs => jw x + jwList xs
/-- Total weight of an object's field values. -/
def jwFields : List (String × Json) → Nat
  | [] => 0
  | f :: fs => jw f.2 + jwFields fs
end

/-- The values the walk pushes when popping an object node whose (lowered)
type tag is `t`: the `offers` value when the node is a candidate offer
container (websearch.py:108), followed by every container field value
(websearch.py:121-123) — so a container's `offers` value is pushed twice,
exactly as in the source. -/
def objPush (t : String) (fs : List (String × Json)) : List Json :=
  (if isOfferTypeTag t then
    match getField fs "offers" with
    | some ov => [ov]
    | none => []
  else []) ++ (fs.map Prod.snd).filter isContainer

/-- The prices appended when popping an object node whose (lowered) type
tag is `t` (the else-branch of websearch.py:109-120). -/
def objPrices (t : String) (fs : List (String × Json)) (rates : Rates) : List ℚ :=
  if isOfferTypeTag t && (getField fs "offers").isNone then
    readOfferPrices fs rates
  else []

/-- Embeds the `while stack:` walk of websearch.py:101-127 together with
its raise path: popping an object node whose type tag is truthy and
non-string raises `AttributeError` exactly where websearch.py:105 calls
`.lower()`, discarding the walk's state (`.error ()`).  The stack head is
its top (Python pushes with `append` and pops from the end; a batch of
appends `[a, b, c]` therefore lands reversed on this representation).
`fuel` is an upper bound on loop iterations; `jw`-weight fuel is always
sufficient (each iteration strictly decreases the stack weight, see
`visitAuxE_fuel_irrelevant`). -/
def visitAuxE (rates : Rates) : Nat → List Json → List ℚ → Except Unit (List ℚ)
  | 0, _, prices => .ok prices
  | _ + 1, [], prices => .ok prices
  | fuel + 1, node :: rest, prices =>
    match node with
    | .obj fs =>
      match typeTag fs with
      | .error _ => .error ()
      | .ok t =>
        visitAuxE rates fuel ((objPush t fs).reverse ++ rest) (prices ++ objPrices t fs rates)
    | .arr xs => visitAuxE rates fuel ((xs.filter isContainer).reverse ++ rest) prices
    | _ => visitAuxE rates fuel rest prices

/-- The *totalized* stack walk: identical to `visitAuxE` except that a
node on which websearch.py:105 would raise is treated as carrying an
unmatched tag and the walk continues.  On every input on which `visitAuxE`
returns, the two agree (`visitAux_agree`); on a raising input the program
aborts the candidate's whole `search` call and emits nothing, while this
variant may go on to emit an offer.  The orchestrator-level emission
invariants are stated over this totalization, which therefore only ever
quantifies over a superset of the offers the program can emit; the raising
behavior itself is the subject of `visitAuxE`/`_extract_from_jsonld`. -/
def visitAux (rates : Rates) : Nat → List Json → List ℚ → List ℚ
  | 0, _, prices => prices
  | _ + 1, [], prices => prices
  | fuel + 1, node :: rest, prices =>
    match node with
    | .obj fs =>
      let t := (typeTag fs).toOption.getD ""
      visitAux rates fuel ((objPush t fs).reverse ++ rest) (prices ++ objPrices t fs rates)
    | .arr xs => visitAux rates fuel ((xs.filter isContainer).reverse ++ rest) prices
    | _ => visitAux rates fuel rest prices

/-- All converted prices collected across a document's structured-data
blocks (the `prices` list of websearch.py:79-127), in collection order,
or the propagated `AttributeError` of the first raising node. -/
def jsonldCollectE (blocks : List Json) (rates : Rates) : Except Unit (List ℚ) :=
  blocks.foldl (fun acc b =>
    match acc with
    | .error e => .error e
    | .ok prices => visitAuxE rates (jw b) [b] prices) (.ok [])

/-- Totalized price collection across a document's blocks, via `visitAux`;
agrees with `jsonldCollectE` whenever the latter returns
(`jsonldCollect_agree`). -/
def jsonldCollect (blocks : List Json) (rates : Rates) : List ℚ :=
  blocks.foldl (fun acc b => visitAux rates (jw b) [b] acc) []

/-- Embeds `_extract_from_jsonld` (websearch.py:74-128) on the parsed
structured-data blocks: `min(prices) if prices else None`, or the
propagated `AttributeError` (`.error ()`) when the walk reaches a node
with a truthy non-string type tag. -/
def _extract_from_jsonld (blocks : List Json) (rates : Rates) : Except Unit (Option ℚ) :=
  match jsonldCollectE blocks rates with
  | .error e => .error e
  | .ok prices => .ok (pyMin prices)

/-! ### The `PRICE_RE` pattern (websearch.py:14-17)

`(\d{1,5}(?:[ \xa0]?\d{3})*(?:[.,]\d{1,2})?)\s*(zł|pln|€|eur|kč|kc|czk)\b`
with `re.IGNORECASE`, applied by `finditer`.  Embedded as a bespoke
backtracking matcher for exactly this pattern, with Python's greedy,
leftmost, non-overlapping semantics. -/

/-- The `[ \xa0]` thousands-separator class. -/
def isSepChar (c : Char) : Bool :=
  c = ' ' || c = Char.ofNat 160

/-- Exactly three digits (`\d{3}`). -/
def take3Digits : List Char → Option (List Char × List Char)
  | a :: b :: c :: r =>
    if a.isDigit && b.isDigit && c.isDigit then some ([a, b, c], r) else none
  | _ => none

/-- One repetition of `(?:[ \xa0]?\d{3})`; the optional separator is greedy,
and when the leading char is a separator the empty-separator alternative
cannot apply (a separator is not a digit), so the step is deterministic. -/
def repOnce (cs : List Char) : Option (List Char × List Char) :=
  match cs with
  | c :: rest =>
    if isSepChar c then
      match take3Digits rest with
      | some (d, r) => some (c :: d, r)
      | none => none
    else take3Digits cs
  | [] => none

/-- All backtracking states of `(?:[ \xa0]?\d{3})*` in greedy order:
maximal repetition count first, zero repetitions last.  Each repetition
consumes at least three characters, so `cs.length` fuel suffices. -/
def repChainAux : Nat → List Char → List (List Char × List Char)
  | 0, cs => [([], cs)]
  | fuel + 1, cs =>
    match repOnce cs with
    | some (tk, r) => (repChainAux fuel r).map (fun p => (tk ++ p.1, p.2)) ++ [([], cs)]
    | none => [([], cs)]

/-- Backtracking states of the thousands-group star. -/
def repChain (cs : List Char) : List (List Char × List Char) :=
  repChainAux cs.length cs

/-- Backtracking states of `\d{1,5}` in greedy order (5 digits first). -/
def digitsOptions (cs : List Char) : List (List Char × List Char) :=
  [5, 4, 3, 2, 1].filterMap (fun k =>
    let d := cs.take k
    if d.length = k && d.all Char.isDigit then some (d, cs.drop k) else none)

/-- Backtracking states of `(?:[.,]\d{1,2})?` in greedy order
(two fraction digits, one, none). -/
def fracOptions (cs : List Char) : List (List Char × List Char) :=
  (match cs with
   | s :: a :: b :: r =>
     if (s = '.' || s = ',') && a.isDigit && b.isDigit then [([s, a, b], r)] else []
   | _ => []) ++
  (match cs with
   | s :: a :: r =>
     if (s = '.' || s = ',') && a.isDigit then [([s, a], r)] else []
   | _ => []) ++
  [([], cs)]

/-- The currency-unit alternatives of group 2, in the pattern's order. -/
def unitAlts : List (List Char) :=
  [['z', 'ł'], ['p', 'l', 'n'], ['€'], ['e', 'u', 'r'], ['k', 'č'], ['k', 'c'], ['c', 'z', 'k']]

/-- Case-insensitive literal match of one alternative; returns the matched
original characters and the remainder. -/
def stripAltCI : List Char → List Char → Option (List Char × List Char)
  | [], cs => some ([], cs)
  | _ :: _, [] => none
  | a :: as, c :: cs =>
    if pyLowerChar c = a then (stripAltCI as cs).map (fun p => (c :: p.1, p.2)) else none

/-- The `\b` assertion after the unit: the position between the unit's last
character and the rest is a word boundary (exactly one side is a word
character).  Notably `€` is not a word character, so `"100 €"` at end of
input does *not* match `PRICE_RE`. -/
def boundaryOk (lastC : Char) (rest : List Char) : Bool :=
  match rest with
  | [] => pyIsWordChar lastC
  | c :: _ => pyIsWordChar lastC != pyIsWordChar c

/-- Try the unit alternatives in order at this position. -/
def tryUnits (cs : List Char) : Option (List Char × List Char) :=
  unitAlts.findSome? (fun alt =>
    match stripAltCI alt cs with
    | some (orig, rest) =>
      match orig.getLast? with
      | some lc => if boundaryOk lc rest then some (orig, rest) else none
      | none => none
    | none => none)

/-- Attempt a `PRICE_RE` match anchored at this position.  Returns
(matched length, group 1, group 2).  `\s*` needs no backtracking: no unit
alternative starts with a whitespace character. -/
def matchAt (cs : List Char) : Option (Nat × List Char × List Char) :=
  (digitsOptions cs).findSome? (fun d =>
    (repChain d.2).findSome? (fun g =>
      (fracOptions g.2).findSome? (fun f =>
        let afterSp := f.2.dropWhile pyIsSpaceChar
        match tryUnits afterSp with
        | some (orig, rest) => some (cs.length - rest.length, d.1 ++ g.1 ++ f.1, orig)
        | none => none)))

/-- Embeds `finditer` scanning: leftmost match, then continue after it
(every match here is at least two characters long; `max len 1` is Python's
advance-by-one on a zero-width match and never fires).  Returns the
(group 1, group 2) pairs in order.  Fuel `cs.length` suffices: every step
consumes at least one character. -/
def scanAux : Nat → List Char → List (List Char × List Char)
  | 0, _ => []
  | fuel + 1, cs =>
    match cs with
    | [] => []
    | _ :: t =>
      match matchAt cs with
      | some (len, g1, g2) => (g1, g2) :: scanAux fuel (cs.drop (max len 1))
      | none => scanAux fuel t

/-- All `PRICE_RE` matches of a text, as (group 1, group 2) pairs. -/
def pyFinditer (text : String) : List (List Char × List Char) :=
  scanAux text.data.length text.data

/-- The `candidates` list of `_extract_price_regex` (websearch.py:133-141):
for each match, parse group 1 with `_to_float` and convert group 2's unit;
failures of either step are skipped. -/
def regexCands (text : String) (rates : Rates) : List ℚ :=
  (pyFinditer text).filterMap (fun m =>
    match _to_float (String.mk m.1) with
    | none => none
    | some val => _convert_to_pln val (String.mk m.2) rates)

/-- Embeds `_extract_price_regex` (websearch.py:132-142):
`min(candidates) if candidates else None`. -/
def _extract_price_regex (text : String) (rates : Rates) : Option ℚ :=
  pyMin (regexCands text rates)

/-! ### Domain extraction (`_domain`, websearch.py:19-25) -/

/-- Characters allowed in a URL scheme after the leading letter. -/
def isSchemeChar (c : Char) : Bool :=
  c.isAlphanum || c = '+' || c = '-' || c = '.'

/-- Strip a leading `scheme:` the way `urlparse` does (a colon preceded by
a letter-led run of scheme characters). -/
def stripScheme (url : String) : List Char :=
  let cs := url.data
  match cs.findIdx? (fun c => c = ':') with
  | some i =>
    if 0 < i then
      let pre := cs.take i
      if (pre.headD ' ').isAlpha && pre.all isSchemeChar then cs.drop (i + 1) else cs
    else cs
  | none => cs

/-- The part of a netloc after its last `@` (Python `netloc.rpartition`). -/
def afterLastAt (cs : List Char) : List Char :=
  (cs.reverse.takeWhile (fun c => c ≠ '@')).reverse

/-- Models `urlparse(url).hostname`: a netloc exists only after `//`;
userinfo before `@` is dropped, a `:port` is dropped, brackets delimit IPv6
hosts, and mismatched brackets make `urlparse` raise `ValueError`
(modeled as `.error ()` — the branch `_domain`'s `except` catches).
An absent or empty host is Python's `None`. -/
def hostnameModel (url : String) : Except Unit (Option String) :=
  match stripScheme url with
  | '/' :: '/' :: r =>
    let netloc := r.takeWhile (fun c => c ≠ '/' && c ≠ '?' && c ≠ '#')
    if (netloc.contains '[' && !netloc.contains ']') ||
       (netloc.contains ']' && !netloc.contains '[') then
      .error ()
    else
      let hostinfo := afterLastAt netloc
      let host :=
        if hostinfo.contains '[' then
          ((hostinfo.dropWhile (fun c => c ≠ '[')).drop 1).takeWhile (fun c => c ≠ ']')
        else hostinfo.takeWhile (fun c => c ≠ ':')
      .ok (if host.isEmpty then none else some (pyLower (String.mk host)))
  | _ => .ok none

/-- Models Python `host.split(".")` on the character list (`"".split(".")`
is `[""]`). -/
def splitDot : List Char → List (List Char)
  | [] => [[]]
  | c :: t =>
    if c = '.' then [] :: splitDot t
    else
      match splitDot t with
      | h :: r => (c :: h) :: r
      | [] => [[c]]

/-- Embeds `_domain` (websearch.py:19-25): hostname (or `""`), split on
`.`; keep the last three labels when there are at least three and the final
label is at most three characters long, else the last two (Python
`parts[-3:]` / `parts[-2:]`), joined with `.`; any `urlparse` exception
yields `""`. -/
def _domain (url : String) : String :=
  match hostnameModel url with
  | .error _ => ""
  | .ok h =>
    let host := h.getD ""
    let parts := splitDot host.data
    if parts.length ≥ 3 && (parts.getLastD []).length ≤ 3 then
      String.mk (List.intercalate ['.'] (parts.drop (parts.length - 3)))
    else
      String.mk (List.intercalate ['.'] (parts.drop (parts.length - 2)))

/-! ### The `search` orchestrator (websearch.py:174-425)

External collaborators become explicit inputs:

* the Google CSE pages arrive as `pages : List (List Item)` (an exhausted
  provider is the empty-page break of websearch.py:258-265);
* `session.get(link)` is the oracle `Oracles.fetch`, returning the raw text
  together with its already-parsed structured-data blocks (`Doc`) or `none`
  for any failure;
* `_render_and_get_html` is the oracle `Oracles.render` (its timeout and
  wait-until arguments do not affect the pure behavior); an attempt that
  returns markup yields `some`, a swallowed failure yields `none`;
* configured regexes (`url_*_patterns`, `pattern`) are opaque predicates,
  `re.compile` errors on `pattern` having already been collapsed to `none`
  (websearch.py:216-222);
* the `GOOGLE_CSE_KEY`/`GOOGLE_CSE_CX` guard and the debug‑CSV writes are
  environment I/O with no effect on the returned offers and are omitted.

The module global `_RENDER_COUNT` enters as `rc0` and leaves in the result. -/

/-- One raw CSE result item (`link`, `title`). -/
structure Item where
  link : String
  title : String
deriving DecidableEq

/-- A fetched document: its raw text plus its parsed structured-data
blocks (the modeling boundary of `_extract_from_jsonld`). -/
structure Doc where
  text : String
  blocks : List Json

/-- An accepted offer record (websearch.py:407-412). -/
structure Offer where
  store : String
  title : String
  url : String
  price_pln : Option ℚ
deriving DecidableEq

/-- The `rendering` policy subset that affects pure behavior. -/
structure RenderCfg where
  enable_js : Bool
  max_js : Nat
  js_domains_wl : List String

/-- The run-scoped context `search` derives from `ctx` before its loop
(websearch.py:193-222) — the FilterContext.  `out_words` is the
already-lowered marker list; `pat` is the compiled product pattern or
`none`. -/
structure Cfg where
  max_results : Nat
  whitelist : List String
  blacklist : List String
  url_wl : List (String → Bool)
  url_bl : List (String → Bool)
  out_words : List String
  require_in_stock : Bool
  rates : Rates
  pat : Option (String → Bool)
  rend : RenderCfg

/-- The network collaborators of one run. -/
structure Oracles where
  fetch : String → Option Doc
  render : String → Option Doc

/-- `any(w in low for w in out_words)` over the lowered document text. -/
def hasMarker (words : List String) (text : String) : Bool :=
  words.any (fun w => isSubstrS w (pyLower text))

/-- Embeds websearch.py:363 — `_extract_from_jsonld(...) or
_extract_price_regex(...)` with Python `or` (a `0.0` from the structured
extractor falls through to the regex extractor) — over the totalized
structured walk (see `visitAux`; on a document where the walk raises, the
program emits nothing at all for the candidate, so the emission invariants
stated over this totalization remain sound). -/
def docPrice (doc : Doc) (rates : Rates) : Option ℚ :=
  pyOrQ (pyMin (jsonldCollect doc.blocks rates)) (_extract_price_regex doc.text rates)

/-- Result of the render fallback step (websearch.py:366-386). -/
structure RRes where
  price : Option ℚ
  matched : Bool
  usedJs : Bool
  renderCalls : Nat
  rc : Nat
  rendered : Option Doc

/-- Embeds websearch.py:366-386: when the candidate is still unpriced and
JS is enabled, the domain is render-eligible and the budget has capacity,
invoke the renderer; the counter `rc` is incremented on every attempt.
On truthy rendered markup, re-run the pattern test if needed and recompute
availability and pricing on the rendered document. -/
def renderPhase (cfg : Cfg) (oc : Oracles) (rc : Nat) (link dom title : String)
    (matched0 : Bool) (price0 : Option ℚ) : RRes :=
  if price0.isNone && cfg.rend.enable_js then
    if cfg.rend.js_domains_wl.isEmpty ||
       cfg.rend.js_domains_wl.any (fun w => pyEndsWith dom w) then
      if rc < cfg.rend.max_js then
        match oc.render link with
        | none => ⟨price0, matched0, false, 1, rc + 1, none⟩
        | some rdoc =>
          if rdoc.text = "" then ⟨price0, matched0, false, 1, rc + 1, some rdoc⟩
          else
            let matched1 :=
              match cfg.pat with
              | some p => if !matched0 then (p title || p rdoc.text) else matched0
              | none => matched0
            let price1 :=
              if cfg.require_in_stock && !cfg.out_words.isEmpty then
                if hasMarker cfg.out_words rdoc.text then none
                else docPrice rdoc cfg.rates
              else docPrice rdoc cfg.rates
            ⟨price1, matched1, true, 1, rc + 1, some rdoc⟩
      else ⟨price0, matched0, false, 0, rc, none⟩
    else ⟨price0, matched0, false, 0, rc, none⟩
  else ⟨price0, matched0, false, 0, rc, none⟩

/-- Models `html.unescape` for the XML entities; the full HTML5 entity
table is plumbing that no claim touches, and unmapped entities pass
through unchanged (as in Python). -/
def unescapeChars : List Char → List Char
  | '&' :: 'a' :: 'm' :: 'p' :: ';' :: r => '&' :: unescapeChars r
  | '&' :: 'l' :: 't' :: ';' :: r => '<' :: unescapeChars r
  | '&' :: 'g' :: 't' :: ';' :: r => '>' :: unescapeChars r
  | '&' :: 'q' :: 'u' :: 'o' :: 't' :: ';' :: r => '"' :: unescapeChars r
  | c :: r => c :: unescapeChars r
  | [] => []

/-- Models `html.unescape` on strings. -/
def htmlUnescape (s : String) : String :=
  String.mk (unescapeChars s.data)

/-- Outcome of pushing one candidate through the cascade, with ghost
instrumentation: how many document fetches and render attempts the
candidate caused, the counter value after it, whether truthy rendered
markup was used, and the rendered document (when the renderer returned). -/
structure ItemRes where
  offer : Option Offer
  fetchCalls : Nat
  renderCalls : Nat
  rc : Nat
  usedJs : Bool
  rendered : Option Doc

/-- The provisional product-pattern test of websearch.py:338-340:
`True` when no pattern is configured, else a match on the title or on the
static document text. -/
def matched0 (cfg : Cfg) (title text : String) : Bool :=
  match cfg.pat with
  | some p => p title || p text
  | none => true

/-- Embeds the per-candidate body of the result loop
(websearch.py:267-412): empty link skip; domain whitelist/blacklist;
URL-pattern whitelist/blacklist; fetch; provisional pattern test on
title/static text; static availability check; static pricing; render
fallback; final pattern check; emission. -/
def processItem (cfg : Cfg) (oc : Oracles) (rc : Nat) (it : Item) : ItemRes :=
  if it.link = "" then ⟨none, 0, 0, rc, false, none⟩
  else
    let dom := _domain it.link
    if !cfg.whitelist.isEmpty && cfg.whitelist.all (fun w => !pyEndsWith dom w) then
      ⟨none, 0, 0, rc, false, none⟩
    else if !cfg.blacklist.isEmpty && cfg.blacklist.any (fun b => pyEndsWith dom b) then
      ⟨none, 0, 0, rc, false, none⟩
    else if !cfg.url_wl.isEmpty && !cfg.url_wl.any (fun p => p it.link) then
      ⟨none, 0, 0, rc, false, none⟩
    else if !cfg.url_bl.isEmpty && cfg.url_bl.any (fun p => p it.link) then
      ⟨none, 0, 0, rc, false, none⟩
    else
      match oc.fetch it.link with
      | none => ⟨none, 1, 0, rc, false, none⟩
      | some doc =>
        if cfg.require_in_stock && !cfg.out_words.isEmpty &&
           hasMarker cfg.out_words doc.text then
          ⟨none, 1, 0, rc, false, none⟩
        else
          let rr := renderPhase cfg oc rc it.link dom it.title
            (matched0 cfg it.title doc.text) (docPrice doc cfg.rates)
          if cfg.pat.isSome && !rr.matched then
            ⟨none, 1, rr.renderCalls, rr.rc, rr.usedJs, rr.rendered⟩
          else
            ⟨some ⟨"web", htmlUnescape it.title, it.link, rr.price⟩,
              1, rr.renderCalls, rr.rc, rr.usedJs, rr.rendered⟩

/-- Loop state across candidates and pages: the `items` accumulator,
the accepted-offer counter (Python's `fetched`), the render counter, and
ghost totals of fetch and render attempts. -/
structure RunSt where
  items : List Offer
  fetched : Nat
  rc : Nat
  fetchCalls : Nat
  renderCalls : Nat

/-- Embeds the `for it in results:` loop of one page, including the inner
break once `fetched >= max_results` (websearch.py:414-416). -/
def procItems (cfg : Cfg) (oc : Oracles) : List Item → RunSt → RunSt
  | [], st => st
  | it :: rest, st =>
    let r := processItem cfg oc st.rc it
    let st1 : RunSt :=
      { items := st.items ++ r.offer.toList
        fetched := st.fetched + (if r.offer.isSome then 1 else 0)
        rc := r.rc
        fetchCalls := st.fetchCalls + r.fetchCalls
        renderCalls := st.renderCalls + r.renderCalls }
    if st1.fetched ≥ cfg.max_results then st1 else procItems cfg oc rest st1

/-- Embeds the `while fetched < max_results:` pagination loop
(websearch.py:252-419): stop on the budget or on an empty page; an
exhausted `pages` list is the provider returning no further items. -/
def procPages (cfg : Cfg) (oc : Oracles) : List (List Item) → RunSt → RunSt
  | [], st => st
  | pg :: rest, st =>
    if st.fetched < cfg.max_results then
      if pg.isEmpty then st
      else procPages cfg oc rest (procItems cfg oc pg st)
    else st

/-- One step of the URL deduplication dict (websearch.py:421-425): Python
dict insertion keeps first-insertion order and last-assigned value. -/
def dedupeStep (acc : List Offer) (o : Offer) : List Offer :=
  if acc.any (fun x => x.url == o.url) then
    acc.map (fun x => if x.url = o.url then o else x)
  else acc ++ [o]

/-- `uniq = {}; for o in items: uniq[o["url"]] = o; list(uniq.values())`. -/
def dedupe (l : List Offer) : List Offer :=
  l.foldl dedupeStep []

/-- Result of one `search` call: the returned deduplicated offers, the
pre-deduplication emissions (ghost), the final `_RENDER_COUNT`, and ghost
collaborator call totals. -/
structure SearchRes where
  offers : List Offer
  emitted : List Offer
  rc : Nat
  fetchCalls : Nat
  renderCalls : Nat

/-- Embeds `search` (websearch.py:174-425) as a pure function of the
FilterContext, the collaborators, the provider's pages and the incoming
`_RENDER_COUNT` value `rc0`. -/
def search (cfg : Cfg) (oc : Oracles) (pages : List (List Item)) (rc0 : Nat) : SearchRes :=
  let st := procPages cfg oc pages ⟨[], 0, rc0, 0, 0⟩
  ⟨dedupe st.items, st.items, st.rc, st.fetchCalls, st.renderCalls⟩

/-- A run's sequence of `search` calls (main.py:70-104 iterates products
and stores inside one `run_once`), threading the module-global render
counter — which `run_once` never resets.  Returns the final counter and
the total number of render attempts across the run. -/
def runCalls : List (Cfg × Oracles × List (List Item)) → Nat → Nat × Nat
  | [], rc => (rc, 0)
  | (cfg, oc, pgs) :: rest, rc =>
    let r := search cfg oc pgs rc
    ((runCalls rest r.rc).1, r.renderCalls + (runCalls rest r.rc).2)

/-! ### Concrete run fixtures

Small closed instances used to instantiate the claims: configurations,
collaborator oracles and result pages for concrete `search` runs. -/

/-- An empty rate table (no euro/crown parsing). -/
def ratesC1 : Rates := ⟨false, false, none, none⟩

/-- Unpriced render-eligible candidate; budget 1; renderer fails. -/
def cfgC1 : Cfg := ⟨1, [], [], [], [], [], false, ratesC1, none, ⟨true, 1, []⟩⟩

def ocC1 : Oracles :=
  ⟨fun u => if u = "http://a.pl/x" then some ⟨"strona", []⟩ else none, fun _ => none⟩

def pagesC1 : List (List Item) := [[⟨"http://a.pl/x", "t"⟩]]

def ratesC2 : Rates := ⟨false, false, none, none⟩

/-- In-stock required with one marker; rendering enabled with budget 5. -/
def cfgC2 : Cfg :=
  ⟨10, [], [], [], [], ["brak w magazynie"], true, ratesC2, none, ⟨true, 5, []⟩⟩

/-- Static text carries no marker and no price; the rendered text carries
the out-of-stock marker. -/
def ocC2 : Oracles :=
  ⟨fun u => if u = "http://s.pl/p" then some ⟨"strona produktu", []⟩ else none,
   fun u => if u = "http://s.pl/p" then some ⟨"brak w magazynie", []⟩ else none⟩

def itC2 : Item := ⟨"http://s.pl/p", "Tytul"⟩

def pagesC2 : List (List Item) := [[itC2]]

def offerC2 : Offer := ⟨"web", "Tytul", "http://s.pl/p", none⟩

/-- Euro parsing enabled with rate 4.3. -/
def ratesC3 : Rates := ⟨true, false, some (mkRat 43 10), none⟩

/-- All parsing flags and rates absent. -/
def ratesC3off : Rates := ⟨false, false, none, none⟩

def ratesC4 : Rates := ⟨false, false, none, none⟩

/-- A Product container with two reference-currency offers priced 199.99
and 149.50. -/
def c4block : Json :=
  .obj [("@type", .str "Product"),
    ("offers", .arr [
      .obj [("@type", .str "Offer"), ("price", .num (mkRat 19999 100)),
        ("priceCurrency", .str "PLN")],
      .obj [("@type", .str "Offer"), ("price", .num (mkRat 1495 10)),
        ("priceCurrency", .str "PLN")]])]

/-- A block whose top node carries the standard list-valued
`"@type": ["Product"]` — a truthy non-string tag, on which
websearch.py:105 raises `AttributeError`. -/
def c4badBlock : Json :=
  .obj [("@type", .arr [.str "Product"]),
    ("offers", .arr [
      .obj [("@type", .str "Offer"), ("price", .num (mkRat 19999 100)),
        ("priceCurrency", .str "PLN")]])]

def ratesC5 : Rates := ⟨false, false, none, none⟩

def cfgC5 : Cfg := ⟨10, [], [], [], [], [], false, ratesC5, none, ⟨false, 0, []⟩⟩

/-- The fetched document genuinely lists a zero price. -/
def ocC5 : Oracles :=
  ⟨fun u => if u = "http://z.pl/p" then some ⟨"cena 0 zł", []⟩ else none, fun _ => none⟩

def itC5 : Item := ⟨"http://z.pl/p", "t"⟩

def pagesC5 : List (List Item) := [[itC5]]

def ratesC6 : Rates := ⟨false, false, none, none⟩

/-- One unpriced render-eligible candidate and a render budget of 1. -/
def cfgC6 : Cfg := ⟨1, [], [], [], [], [], false, ratesC6, none, ⟨true, 1, []⟩⟩

def ocC6 : Oracles :=
  ⟨fun u => if u = "http://a.pl/x" then some ⟨"strona", []⟩ else none, fun _ => none⟩

def pagesC6 : List (List Item) := [[⟨"http://a.pl/x", "t"⟩]]

def ratesC7 : Rates := ⟨false, false, none, none⟩

/-- An offer node whose `price` key is present but zero (falsy) while
`lowPrice` is 5. -/
def c7node : List (String × Json) :=
  [("@type", Json.str "Offer"), ("price", Json.num 0), ("lowPrice", Json.num 5)]

def ratesC8 : Rates := ⟨false, false, none, none⟩

/-- A domain whitelist that the candidate's domain does not match. -/
def cfgC8 : Cfg := ⟨10, ["sklep.pl"], [], [], [], [], false, ratesC8, none, ⟨false, 0, []⟩⟩

def ocC8 : Oracles := ⟨fun _ => none, fun _ => none⟩

def itC8 : Item := ⟨"http://evil.com/x", "t"⟩

def ratesC9 : Rates := ⟨false, false, none, none⟩

/-- Euro parsing enabled with rate 4.3 (the spec's second example). -/
def ratesC9eur : Rates := ⟨true, false, some (mkRat 43 10), none⟩

def ratesC10 : Rates := ⟨false, false, none, none⟩

/-- A non-empty domain allow-set containing the empty suffix. -/
def cfgC10 : Cfg := ⟨10, [""], [], [], [], [], false, ratesC10, none, ⟨false, 0, []⟩⟩

/-- A non-empty domain allow-set of non-empty suffixes. -/
def cfgC10w : Cfg := ⟨10, ["sklep.pl"], [], [], [], [], false, ratesC10, none, ⟨false, 0, []⟩⟩

def ocC10 : Oracles := ⟨fun _ => none, fun _ => none⟩

/-- A candidate whose URL has no parseable hostname, so `_domain` is `""`. -/
def itC10 : Item := ⟨"nota-url", "t"⟩

/-! ### Supporting lemmas -/

theorem foldl_min_mem (l : List ℚ) : ∀ a : ℚ, l.foldl min a ∈ a :: l := by
  induction l with
  | nil => intro a; simp
  | cons x xs ih =>
    intro a
    have h := ih (min a x)
    rcases min_choice a x with hc | hc <;>
      rcases List.mem_cons.mp h with h1 | h1 <;>
      simp [List.foldl_cons, h1, hc] at * <;> tauto

theorem foldl_min_le (l : List ℚ) : ∀ a x : ℚ, x ∈ a :: l → l.foldl min a ≤ x := by
  induction l with
  | nil => intro a x hx; simp_all
  | cons y ys ih =>
    intro a x hx
    simp only [List.foldl_cons]
    have hseed : ys.foldl min (min a y) ≤ min a y := ih _ _ (List.mem_cons_self _ _)
    rcases List.mem_cons.mp hx with h1 | h1
    · exact le_trans hseed (by rw [h1]; exact min_le_left _ _)
    · rcases List.mem_cons.mp h1 with h2 | h2
      · exact le_trans hseed (by rw [h2]; exact min_le_right _ _)
      · exact ih _ _ (List.mem_cons_of_mem _ h2)

theorem pyMin_none_iff (l : List ℚ) : pyMin l = none ↔ l = [] := by
  cases l <;> simp [pyMin]

theorem pyMin_spec (l : List ℚ) (q : ℚ) (h : pyMin l = some q) :
    q ∈ l ∧ ∀ x ∈ l, q ≤ x := by
  cases l with
  | nil => simp [pyMin] at h
  | cons a t =>
    simp only [pyMin, Option.some.injEq] at h
    subst h
    exact ⟨foldl_min_mem t a, fun x hx => foldl_min_le t a x hx⟩

theorem pyOrQ_some (a b : Option ℚ) (q : ℚ) (h : pyOrQ a b = some q) :
    a = some q ∨ b = some q := by
  cases a with
  | none => exact Or.inr h
  | some v =>
    simp only [pyOrQ] at h
    split at h
    · exact Or.inl h
    · exact Or.inr h

theorem jw_pos (j : Json) : 1 ≤ jw j := by
  cases j <;> simp only [jw] <;> omega

theorem jwList_append (a b : List Json) : jwList (a ++ b) = jwList a + jwList b := by
  induction a with
  | nil => simp [jwList]
  | cons x xs ih => simp [jwList, ih]; omega

theorem jwList_reverse (l : List Json) : jwList l.reverse = jwList l := by
  induction l with
  | nil => rfl
  | cons x xs ih => simp [jwList, List.reverse_cons, jwList_append, ih]; omega

theorem jwList_filter_le (p : Json → Bool) (l : List Json) :
    jwList (l.filter p) ≤ jwList l := by
  induction l with
  | nil => simp [jwList]
  | cons x xs ih =>
    by_cases h : p x <;> simp [List.filter, h, jwList] <;> omega

theorem jwList_map_snd (fs : List (String × Json)) :
    jwList (fs.map Prod.snd) = jwFields fs := by
  induction fs with
  | nil => rfl
  | cons f fs ih => simp [jwList, jwFields, ih]

theorem getField_jw_le (fs : List (String × Json)) (k : String) (v : Json)
    (h : getField fs k = some v) : jw v ≤ jwFields fs := by
  induction fs with
  | nil => simp [getField] at h
  | cons f fs ih =>
    simp only [getField] at h
    by_cases hk : f.1 = k
    · rw [if_pos hk] at h
      cases h
      simp only [jwFields]; omega
    · rw [if_neg hk] at h
      have := ih h
      simp only [jwFields]; omega

theorem jwList_objPush_le (t : String) (fs : List (String × Json)) :
    jwList (objPush t fs) ≤ 2 * jwFields fs := by
  unfold objPush
  rw [jwList_append]
  have h2 : jwList ((fs.map Prod.snd).filter isContainer) ≤ jwFields fs :=
    le_trans (jwList_filter_le _ _) (le_of_eq (jwList_map_snd fs))
  have h1 : jwList (if isOfferTypeTag t then
      (match getField fs "offers" with | some ov => [ov] | none => []) else [])
      ≤ jwFields fs := by
    split
    · cases hg : getField fs "offers" with
      | none => simp [jwList]
      | some ov =>
        have := getField_jw_le fs "offers" ov hg
        simp only [jwList]
        omega
    · simp [jwList]
  omega

theorem visitAux_nil (rates : Rates) (fuel : Nat) (prices : List ℚ) :
    visitAux rates fuel [] prices = prices := by
  cases fuel <;> rfl

/-- The stack walk is insensitive to its fuel as soon as the fuel covers the
stack's `jw`-weight: every iteration strictly decreases the total weight, so
`jw`-weight fuel always reaches the empty stack.  This discharges the fuel
parameter as a faithful rendering of the unbounded `while stack:` loop. -/
theorem visitAux_fuel_irrelevant (rates : Rates) :
    ∀ f g stack prices, jwList stack ≤ f → jwList stack ≤ g →
      visitAux rates f stack prices = visitAux rates g stack prices := by
  intro f
  induction f using Nat.strong_induction_on with
  | _ f ih =>
    intro g stack prices hf hg
    cases stack with
    | nil => rw [visitAux_nil, visitAux_nil]
    | cons node rest =>
      have hw : 1 ≤ jw node := jw_pos node
      have hjl : jwList (node :: rest) = jw node + jwList rest := rfl
      cases f with
      | zero => omega
      | succ f' =>
        cases g with
        | zero => omega
        | succ g' =>
          cases node with
          | obj fs =>
            simp only [visitAux]
            have hb : jwList ((objPush ((typeTag fs).toOption.getD "") fs).reverse ++ rest)
                ≤ 2 * jwFields fs + jwList rest := by
              rw [jwList_append, jwList_reverse]
              have := jwList_objPush_le ((typeTag fs).toOption.getD "") fs
              omega
            have hjw : jw (Json.obj fs) = 1 + 2 * jwFields fs := rfl
            exact ih f' (by omega) g' _ _ (by omega) (by omega)
          | arr xs =>
            simp only [visitAux]
            have hb : jwList ((xs.filter isContainer).reverse ++ rest)
                ≤ jwList xs + jwList rest := by
              rw [jwList_append, jwList_reverse]
              have := jwList_filter_le isContainer xs
              omega
            have hjw : jw (Json.arr xs) = 1 + jwList xs := rfl
            exact ih f' (by omega) g' _ _ (by omega) (by omega)
          | null =>
            simp only [visitAux]
            exact ih f' (by omega) g' _ _ (by omega) (by omega)
          | bool b =>
            simp only [visitAux]
            exact ih f' (by omega) g' _ _ (by omega) (by omega)
          | num q =>
            simp only [visitAux]
            exact ih f' (by omega) g' _ _ (by omega) (by omega)
          | str s =>
            simp only [visitAux]
            exact ih f' (by omega) g' _ _ (by omega) (by omega)

theorem visitAuxE_nil (rates : Rates) (fuel : Nat) (prices : List ℚ) :
    visitAuxE rates fuel [] prices = .ok prices := by
  cases fuel <;> rfl

/-- The raising stack walk is likewise insensitive to its fuel as soon as
the fuel covers the stack's `jw`-weight. -/
theorem visitAuxE_fuel_irrelevant (rates : Rates) :
    ∀ f g stack prices, jwList stack ≤ f → jwList stack ≤ g →
      visitAuxE rates f stack prices = visitAuxE rates g stack prices := by
  intro f
  induction f using Nat.strong_induction_on with
  | _ f ih =>
    intro g stack prices hf hg
    cases stack with
    | nil => rw [visitAuxE_nil, visitAuxE_nil]
    | cons node rest =>
      have hw : 1 ≤ jw node := jw_pos node
      have hjl : jwList (node :: rest) = jw node + jwList rest := rfl
      cases f with
      | zero => omega
      | succ f' =>
        cases g with
        | zero => omega
        | succ g' =>
          cases node with
          | obj fs =>
            simp only [visitAuxE]
            cases ht : typeTag fs with
            | error e => rfl
            | ok t =>
              have hb : jwList ((objPush t fs).reverse ++ rest)
                  ≤ 2 * jwFields fs + jwList rest := by
                rw [jwList_append, jwList_reverse]
                have := jwList_objPush_le t fs
                omega
              have hjw : jw (Json.obj fs) = 1 + 2 * jwFields fs := rfl
              exact ih f' (by omega) g' _ _ (by omega) (by omega)
          | arr xs =>
            simp only [visitAuxE]
            have hb : jwList ((xs.filter isContainer).reverse ++ rest)
                ≤ jwList xs + jwList rest := by
              rw [jwList_append, jwList_reverse]
              have := jwList_filter_le isContainer xs
              omega
            have hjw : jw (Json.arr xs) = 1 + jwList xs := rfl
            exact ih f' (by omega) g' _ _ (by omega) (by omega)
          | null =>
            simp only [visitAuxE]
            exact ih f' (by omega) g' _ _ (by omega) (by omega)
          | bool b =>
            simp only [visitAuxE]
            exact ih f' (by omega) g' _ _ (by omega) (by omega)
          | num q =>
            simp only [visitAuxE]
            exact ih f' (by omega) g' _ _ (by omega) (by omega)
          | str s =>
            simp only [visitAuxE]
            exact ih f' (by omega) g' _ _ (by omega) (by omega)

/-- On every walk on which the program returns (no node raises), the
totalized walk computes exactly what the raising walk returns. -/
theorem visitAux_agree (rates : Rates) :
    ∀ (fuel : Nat) (stack : List Json) (prices l : List ℚ),
      visitAuxE rates fuel stack prices = .ok l →
      visitAux rates fuel stack prices = l := by
  intro fuel
  induction fuel with
  | zero =>
    intro stack prices l h
    simp only [visitAuxE, Except.ok.injEq] at h
    subst h
    rfl
  | succ f ih =>
    intro stack prices l h
    cases stack with
    | nil =>
      rw [visitAuxE_nil] at h
      cases h
      rw [visitAux_nil]
    | cons node rest =>
      cases node with
      | obj fs =>
        cases ht : typeTag fs with
        | error e =>
          simp only [visitAuxE, ht] at h
          exact Except.noConfusion h
        | ok t =>
          simp only [visitAuxE, ht] at h
          simp only [visitAux]
          have hcol : (typeTag fs).toOption.getD "" = t := by rw [ht]; rfl
          rw [hcol]
          exact ih _ _ _ h
      | arr xs =>
        simp only [visitAuxE] at h
        simp only [visitAux]
        exact ih _ _ _ h
      | null =>
        simp only [visitAuxE] at h
        simp only [visitAux]
        exact ih _ _ _ h
      | bool b =>
        simp only [visitAuxE] at h
        simp only [visitAux]
        exact ih _ _ _ h
      | num q =>
        simp only [visitAuxE] at h
        simp only [visitAux]
        exact ih _ _ _ h
      | str s =>
        simp only [visitAuxE] at h
        simp only [visitAux]
        exact ih _ _ _ h

/-- A raised `AttributeError` propagates through the rest of the per-block
fold: once a block raises, collection is over. -/
theorem jsonldCollectE_foldl_error (rates : Rates) (blocks : List Json) (e : Unit) :
    blocks.foldl (fun acc b =>
      match acc with
      | .error e => .error e
      | .ok prices => visitAuxE rates (jw b) [b] prices) (Except.error e)
      = .error e := by
  induction blocks with
  | nil => rfl
  | cons b bs ih =>
    simp only [List.foldl_cons]
    exact ih

theorem jsonldCollect_agree_aux (rates : Rates) :
    ∀ (blocks : List Json) (acc l : List ℚ),
      blocks.foldl (fun a b =>
        match a with
        | .error e => .error e
        | .ok prices => visitAuxE rates (jw b) [b] prices) (Except.ok acc) = .ok l →
      blocks.foldl (fun a b => visitAux rates (jw b) [b] a) acc = l := by
  intro blocks
  induction blocks with
  | nil =>
    intro acc l h
    simp only [List.foldl_nil, Except.ok.injEq] at h
    simpa using h
  | cons b bs ih =>
    intro acc l h
    simp only [List.foldl_cons] at h ⊢
    cases hv : visitAuxE rates (jw b) [b] acc with
    | error e =>
      rw [hv] at h
      rw [jsonldCollectE_foldl_error] at h
      exact Except.noConfusion h
    | ok mid =>
      rw [hv] at h
      rw [visitAux_agree rates (jw b) [b] acc mid hv]
      exact ih mid l h

/-- On every document on which structured collection returns (no reachable
node has a truthy non-string type tag), the totalized collection used by
the orchestrator computes exactly the returned price list. -/
theorem jsonldCollect_agree (blocks : List Json) (rates : Rates) (l : List ℚ)
    (h : jsonldCollectE blocks rates = .ok l) :
    jsonldCollect blocks rates = l := by
  unfold jsonldCollectE at h
  unfold jsonldCollect
  exact jsonldCollect_agree_aux rates blocks [] l h

/-- All prices a document can contribute: the structured-walk collection
and the `PRICE_RE` candidates. -/
def docPrices (doc : Doc) (rates : Rates) : List ℚ :=
  jsonldCollect doc.blocks rates ++ regexCands doc.text rates

theorem docPrice_mem (doc : Doc) (rates : Rates) (q : ℚ)
    (h : docPrice doc rates = some q) : q ∈ docPrices doc rates := by
  unfold docPrice at h
  unfold docPrices
  rcases pyOrQ_some _ _ _ h with h1 | h1
  · exact List.mem_append_left _ (pyMin_spec _ _ h1).1
  · exact List.mem_append_right _ (pyMin_spec _ _ h1).1

theorem renderPhase_rc (cfg : Cfg) (oc : Oracles) (rc : Nat) (link dom title : String)
    (m0 : Bool) (p0 : Option ℚ) :
    (renderPhase cfg oc rc link dom title m0 p0).rc
      = rc + (renderPhase cfg oc rc link dom title m0 p0).renderCalls
    ∧ (renderPhase cfg oc rc link dom title m0 p0).renderCalls ≤ 1
    ∧ ((renderPhase cfg oc rc link dom title m0 p0).renderCalls = 1
        → rc < cfg.rend.max_js) := by
  by_cases h1 : (p0.isNone && cfg.rend.enable_js) = true
  · by_cases h2 : (cfg.rend.js_domains_wl.isEmpty
        || cfg.rend.js_domains_wl.any (fun w => pyEndsWith dom w)) = true
    · by_cases h3 : rc < cfg.rend.max_js
      · cases hr : oc.render link with
        | none => simp [renderPhase, h1, h2, h3, hr]
        | some rdoc =>
          by_cases ht : rdoc.text = "" <;>
            simp [renderPhase, h1, h2, h3, hr, ht]
      · simp [renderPhase, h1, h2, h3]
    · simp [renderPhase, h1, h2]
  · simp [renderPhase, h1]

theorem renderPhase_price (cfg : Cfg) (oc : Oracles) (rc : Nat) (link dom title : String)
    (m0 : Bool) (p0 : Option ℚ) (q : ℚ)
    (h : (renderPhase cfg oc rc link dom title m0 p0).price = some q) :
    p0 = some q ∨ ∃ rdoc, oc.render link = some rdoc ∧ docPrice rdoc cfg.rates = some q := by
  by_cases h1 : (p0.isNone && cfg.rend.enable_js) = true
  · by_cases h2 : (cfg.rend.js_domains_wl.isEmpty
        || cfg.rend.js_domains_wl.any (fun w => pyEndsWith dom w)) = true
    · by_cases h3 : rc < cfg.rend.max_js
      · cases hr : oc.render link with
        | none => simp [renderPhase, h1, h2, h3, hr] at h; exact Or.inl h
        | some rdoc =>
          by_cases ht : rdoc.text = ""
          · simp [renderPhase, h1, h2, h3, hr, ht] at h
            exact Or.inl h
          · simp [renderPhase, h1, h2, h3, hr, ht] at h
            refine Or.inr ⟨rdoc, rfl, ?_⟩
            by_cases hrq : cfg.require_in_stock = true ∧ ¬cfg.out_words = []
            · rw [if_pos hrq] at h
              by_cases hmk : hasMarker cfg.out_words rdoc.text = true
              · rw [if_pos hmk] at h; exact absurd h (by simp)
              · rw [if_neg hmk] at h; exact h
            · rw [if_neg hrq] at h; exact h
      · simp [renderPhase, h1, h2, h3] at h
        exact Or.inl h
    · simp [renderPhase, h1, h2] at h
      exact Or.inl h
  · simp [renderPhase, h1] at h
    exact Or.inl h

theorem renderPhase_matched (cfg : Cfg) (oc : Oracles) (rc : Nat) (link dom title : String)
    (m0 : Bool) (p0 : Option ℚ) (p : String → Bool) (hp : cfg.pat = some p)
    (h : (renderPhase cfg oc rc link dom title m0 p0).matched = true) :
    m0 = true ∨ ∃ rdoc, oc.render link = some rdoc ∧ (p title || p rdoc.text) = true := by
  by_cases h1 : (p0.isNone && cfg.rend.enable_js) = true
  · by_cases h2 : (cfg.rend.js_domains_wl.isEmpty
        || cfg.rend.js_domains_wl.any (fun w => pyEndsWith dom w)) = true
    · by_cases h3 : rc < cfg.rend.max_js
      · cases hr : oc.render link with
        | none => simp [renderPhase, h1, h2, h3, hr] at h; exact Or.inl h
        | some rdoc =>
          by_cases ht : rdoc.text = ""
          · simp [renderPhase, h1, h2, h3, hr, ht] at h; exact Or.inl h
          · simp [renderPhase, h1, h2, h3, hr, ht, hp] at h
            by_cases hm : m0
            · exact Or.inl hm
            · simp [hm] at h
              refine Or.inr ⟨rdoc, rfl, ?_⟩
              simp only [Bool.or_eq_true]
              exact h
      · simp [renderPhase, h1, h2, h3] at h; exact Or.inl h
    · simp [renderPhase, h1, h2] at h; exact Or.inl h
  · simp [renderPhase, h1] at h; exact Or.inl h

theorem renderPhase_marker (cfg : Cfg) (oc : Oracles) (rc : Nat) (link dom title : String)
    (m0 : Bool) (p0 : Option ℚ) (rdoc : Doc)
    (hu : (renderPhase cfg oc rc link dom title m0 p0).usedJs = true)
    (hd : (renderPhase cfg oc rc link dom title m0 p0).rendered = some rdoc)
    (hreq : cfg.require_in_stock = true) (hw : cfg.out_words ≠ [])
    (hm : hasMarker cfg.out_words rdoc.text = true) :
    (renderPhase cfg oc rc link dom title m0 p0).price = none := by
  by_cases h1 : (p0.isNone && cfg.rend.enable_js) = true
  · by_cases h2 : (cfg.rend.js_domains_wl.isEmpty
        || cfg.rend.js_domains_wl.any (fun w => pyEndsWith dom w)) = true
    · by_cases h3 : rc < cfg.rend.max_js
      · cases hr : oc.render link with
        | none => simp [renderPhase, h1, h2, h3, hr] at hu
        | some rdoc2 =>
          by_cases ht : rdoc2.text = ""
          · simp [renderPhase, h1, h2, h3, hr, ht] at hu
          · have he : rdoc2 = rdoc := by
              simp [renderPhase, h1, h2, h3, hr, ht] at hd
              exact hd
            subst he
            have hcond : (cfg.require_in_stock && !cfg.out_words.isEmpty) = true := by
              simp [hreq, hw]
            simp [renderPhase, h1, h2, h3, hr, ht, hcond, hm]
      · simp [renderPhase, h1, h2, h3] at hu
    · simp [renderPhase, h1, h2] at hu
  · simp [renderPhase, h1] at hu

theorem not_allow_reject {α : Type} (l : List α) (p : α → Bool)
    (h : ¬((!l.isEmpty && l.all fun x => !p x) = true)) (hne : l ≠ []) :
    ∃ x ∈ l, p x = true := by
  rcases l with _ | ⟨a, t⟩
  · exact absurd rfl hne
  · simp only [List.isEmpty_cons, Bool.not_false, Bool.true_and] at h
    rw [List.all_eq_true] at h
    push_neg at h
    obtain ⟨y, hy, hpy⟩ := h
    exact ⟨y, hy, by simpa using hpy⟩

theorem not_allow2_reject {α : Type} (l : List α) (p : α → Bool)
    (h : ¬((!l.isEmpty && !l.any p) = true)) (hne : l ≠ []) :
    ∃ x ∈ l, p x = true := by
  rcases l with _ | ⟨a, t⟩
  · exact absurd rfl hne
  · simp only [List.isEmpty_cons, Bool.not_false, Bool.true_and] at h
    cases hX : (a :: t).any p with
    | true => rw [List.any_eq_true] at hX; exact hX
    | false => exact absurd (by simp [hX]) h

theorem not_deny_reject {α : Type} (l : List α) (p : α → Bool)
    (h : ¬((!l.isEmpty && l.any p) = true)) : ∀ x ∈ l, p x = false := by
  intro x hx
  rcases l with _ | ⟨a, t⟩
  · simp at hx
  · simp only [List.isEmpty_cons, Bool.not_false, Bool.true_and] at h
    cases hp : p x with
    | false => rfl
    | true => exact absurd (List.any_eq_true.mpr ⟨x, hx, hp⟩) h

theorem processItem_rc (cfg : Cfg) (oc : Oracles) (rc : Nat) (it : Item) :
    (processItem cfg oc rc it).rc = rc + (processItem cfg oc rc it).renderCalls
    ∧ (processItem cfg oc rc it).renderCalls ≤ 1
    ∧ ((processItem cfg oc rc it).renderCalls = 1 → rc < cfg.rend.max_js) := by
  by_cases hL : it.link = ""
  · simp [processItem, hL]
  · by_cases hwl : (!cfg.whitelist.isEmpty
        && cfg.whitelist.all fun w => !pyEndsWith (_domain it.link) w) = true
    · simp [processItem, hL, hwl]
    · by_cases hbl : (!cfg.blacklist.isEmpty
          && cfg.blacklist.any fun b => pyEndsWith (_domain it.link) b) = true
      · simp [processItem, hL, hwl, hbl]
      · by_cases huw : (!cfg.url_wl.isEmpty && !cfg.url_wl.any fun p => p it.link) = true
        · simp [processItem, hL, hwl, hbl, huw]
        · by_cases hub : (!cfg.url_bl.isEmpty && cfg.url_bl.any fun p => p it.link) = true
          · simp [processItem, hL, hwl, hbl, huw, hub]
          · cases hf : oc.fetch it.link with
            | none => simp [processItem, hL, hwl, hbl, huw, hub, hf]
            | some doc =>
              by_cases hmk : (cfg.require_in_stock && !cfg.out_words.isEmpty
                  && hasMarker cfg.out_words doc.text) = true
              · simp [processItem, hL, hwl, hbl, huw, hub, hf, hmk]
              · obtain ⟨ha, hb, hc⟩ := renderPhase_rc cfg oc rc it.link (_domain it.link)
                  it.title (matched0 cfg it.title doc.text) (docPrice doc cfg.rates)
                by_cases hfin : (cfg.pat.isSome && !(renderPhase cfg oc rc it.link
                    (_domain it.link) it.title (matched0 cfg it.title doc.text)
                    (docPrice doc cfg.rates)).matched) = true <;>
                  simp [processItem, hL, hwl, hbl, huw, hub, hf, hmk, hfin] <;>
                  exact ⟨ha, hb, hc⟩

theorem matched0_spec (cfg : Cfg) (title text : String) (p : String → Bool)
    (hp : cfg.pat = some p) (h : matched0 cfg title text = true) :
    p title = true ∨ p text = true := by
  unfold matched0 at h
  rw [hp] at h
  exact Bool.or_eq_true_iff.mp h

/-- The full emission invariant of one candidate: an emitted offer passed
the domain and URL filters, carries the candidate's (unescaped) title and
URL, its candidate was fetched, the static text carried no out-of-stock
marker when one was required, the product pattern (when configured) matched
the title, the static text or a rendered document, any price it carries was
collected from the static or rendered document, and a rendered document
carrying a marker under require-in-stock forces an absent price. -/
theorem processItem_emit (cfg : Cfg) (oc : Oracles) (rc : Nat) (it : Item) (o : Offer)
    (h : (processItem cfg oc rc it).offer = some o) :
    it.link ≠ ""
    ∧ (cfg.whitelist ≠ [] → ∃ w ∈ cfg.whitelist, pyEndsWith (_domain it.link) w = true)
    ∧ (∀ b ∈ cfg.blacklist, pyEndsWith (_domain it.link) b = false)
    ∧ (cfg.url_wl ≠ [] → ∃ p ∈ cfg.url_wl, p it.link = true)
    ∧ (∀ p ∈ cfg.url_bl, p it.link = false)
    ∧ o.store = "web" ∧ o.title = htmlUnescape it.title ∧ o.url = it.link
    ∧ ∃ doc, oc.fetch it.link = some doc
      ∧ (cfg.require_in_stock = true → cfg.out_words ≠ [] →
          hasMarker cfg.out_words doc.text = false)
      ∧ (∀ p, cfg.pat = some p →
          p it.title = true ∨ p doc.text = true ∨
          ∃ rdoc, oc.render it.link = some rdoc ∧ p rdoc.text = true)
      ∧ (∀ q, o.price_pln = some q →
          q ∈ docPrices doc cfg.rates ∨
          ∃ rdoc, oc.render it.link = some rdoc ∧ q ∈ docPrices rdoc cfg.rates)
      ∧ ((processItem cfg oc rc it).usedJs = true →
          ∀ rdoc, (processItem cfg oc rc it).rendered = some rdoc →
          cfg.require_in_stock = true → cfg.out_words ≠ [] →
          hasMarker cfg.out_words rdoc.text = true → o.price_pln = none) := by
  by_cases hL : it.link = ""
  · simp [processItem, hL] at h
  · by_cases hwl : (!cfg.whitelist.isEmpty
        && cfg.whitelist.all fun w => !pyEndsWith (_domain it.link) w) = true
    · simp [processItem, hL, hwl] at h
    · by_cases hbl : (!cfg.blacklist.isEmpty
          && cfg.blacklist.any fun b => pyEndsWith (_domain it.link) b) = true
      · simp [processItem, hL, hwl, hbl] at h
      · by_cases huw : (!cfg.url_wl.isEmpty && !cfg.url_wl.any fun p => p it.link) = true
        · simp [processItem, hL, hwl, hbl, huw] at h
        · by_cases hub : (!cfg.url_bl.isEmpty && cfg.url_bl.any fun p => p it.link) = true
          · simp [processItem, hL, hwl, hbl, huw, hub] at h
          · cases hf : oc.fetch it.link with
            | none => simp [processItem, hL, hwl, hbl, huw, hub, hf] at h
            | some doc =>
              by_cases hmk : (cfg.require_in_stock && !cfg.out_words.isEmpty
                  && hasMarker cfg.out_words doc.text) = true
              · simp [processItem, hL, hwl, hbl, huw, hub, hf, hmk] at h
              · by_cases hfin : (cfg.pat.isSome && !(renderPhase cfg oc rc it.link
                    (_domain it.link) it.title (matched0 cfg it.title doc.text)
                    (docPrice doc cfg.rates)).matched) = true
                · simp [processItem, hL, hwl, hbl, huw, hub, hf, hmk, hfin] at h
                · have hres : processItem cfg oc rc it =
                      ⟨some ⟨"web", htmlUnescape it.title, it.link,
                          (renderPhase cfg oc rc it.link (_domain it.link) it.title
                            (matched0 cfg it.title doc.text) (docPrice doc cfg.rates)).price⟩,
                        1,
                        (renderPhase cfg oc rc it.link (_domain it.link) it.title
                          (matched0 cfg it.title doc.text) (docPrice doc cfg.rates)).renderCalls,
                        (renderPhase cfg oc rc it.link (_domain it.link) it.title
                          (matched0 cfg it.title doc.text) (docPrice doc cfg.rates)).rc,
                        (renderPhase cfg oc rc it.link (_domain it.link) it.title
                          (matched0 cfg it.title doc.text) (docPrice doc cfg.rates)).usedJs,
                        (renderPhase cfg oc rc it.link (_domain it.link) it.title
                          (matched0 cfg it.title doc.text) (docPrice doc cfg.rates)).rendered⟩ := by
                    simp [processItem, hL, hwl, hbl, huw, hub, hf, hmk, hfin]
                  rw [hres] at h
                  simp only [Option.some.injEq] at h
                  subst h
                  rw [hres]
                  refine ⟨hL, fun hne => not_allow_reject _ _ hwl hne,
                    not_deny_reject _ _ hbl,
                    fun hne => not_allow2_reject _ _ huw hne,
                    not_deny_reject _ _ hub,
                    rfl, rfl, rfl, doc, rfl, ?_, ?_, ?_, ?_⟩
                  · intro hreq hwne
                    cases hhm : hasMarker cfg.out_words doc.text with
                    | false => rfl
                    | true =>
                      have hwB : cfg.out_words.isEmpty = false := by
                        cases hcw : cfg.out_words with
                        | nil => exact absurd hcw hwne
                        | cons a t => rfl
                      exact absurd (by simp [hreq, hwB, hhm]) hmk
                  · intro p hp
                    have hmT : (renderPhase cfg oc rc it.link (_domain it.link) it.title
                        (matched0 cfg it.title doc.text) (docPrice doc cfg.rates)).matched
                        = true := by
                      cases hmm : (renderPhase cfg oc rc it.link (_domain it.link) it.title
                          (matched0 cfg it.title doc.text) (docPrice doc cfg.rates)).matched with
                      | true => rfl
                      | false => exact absurd (by simp [hp, hmm]) hfin
                    rcases renderPhase_matched cfg oc rc it.link (_domain it.link) it.title
                        (matched0 cfg it.title doc.text) (docPrice doc cfg.rates) p hp hmT with
                      hm0 | ⟨rdoc, hrd, hor⟩
                    · rcases matched0_spec cfg it.title doc.text p hp hm0 with h1 | h1
                      · exact Or.inl h1
                      · exact Or.inr (Or.inl h1)
                    · rcases Bool.or_eq_true_iff.mp hor with h1 | h1
                      · exact Or.inl h1
                      · exact Or.inr (Or.inr ⟨rdoc, hrd, h1⟩)
                  · intro q hq
                    rcases renderPhase_price cfg oc rc it.link (_domain it.link) it.title
                        (matched0 cfg it.title doc.text) (docPrice doc cfg.rates) q hq with
                      hp0 | ⟨rdoc, hrd, hdp⟩
                    · exact Or.inl (docPrice_mem doc cfg.rates q hp0)
                    · exact Or.inr ⟨rdoc, hrd, docPrice_mem rdoc cfg.rates q hdp⟩
                  · intro hu rdoc hrd hreq hwne hhm
                    exact renderPhase_marker cfg oc rc it.link (_domain it.link) it.title
                      (matched0 cfg it.title doc.text) (docPrice doc cfg.rates) rdoc
                      hu hrd hreq hwne hhm

theorem procItems_rc (cfg : Cfg) (oc : Oracles) :
    ∀ (l : List Item) (st : RunSt),
    ∃ d, (procItems cfg oc l st).renderCalls = st.renderCalls + d
      ∧ (procItems cfg oc l st).rc = st.rc + d
      ∧ (st.rc ≤ cfg.rend.max_js → (procItems cfg oc l st).rc ≤ cfg.rend.max_js)
      ∧ (cfg.rend.max_js ≤ st.rc → d = 0) := by
  intro l
  induction l with
  | nil =>
    intro st
    exact ⟨0, by simp [procItems], by simp [procItems],
      fun h => by simpa [procItems] using h, fun _ => rfl⟩
  | cons it rest ih =>
    intro st
    obtain ⟨hra, hrb, hrc⟩ := processItem_rc cfg oc st.rc it
    have hbound : st.rc ≤ cfg.rend.max_js →
        (processItem cfg oc st.rc it).rc ≤ cfg.rend.max_js := by
      intro hle
      rcases Nat.lt_or_ge st.rc cfg.rend.max_js with hclt | hcge
      · omega
      · have h0 : (processItem cfg oc st.rc it).renderCalls = 0 := by
          by_contra hne
          have h1 : (processItem cfg oc st.rc it).renderCalls = 1 := by omega
          have := hrc h1
          omega
        omega
    have hzero : cfg.rend.max_js ≤ st.rc →
        (processItem cfg oc st.rc it).renderCalls = 0 := by
      intro hge
      by_contra hne
      have h1 : (processItem cfg oc st.rc it).renderCalls = 1 := by omega
      have := hrc h1
      omega
    by_cases hso : (processItem cfg oc st.rc it).offer.isSome = true
    · simp only [procItems, if_pos hso]
      split
      · refine ⟨(processItem cfg oc st.rc it).renderCalls, ?_, ?_, ?_, ?_⟩
        · dsimp only
        · dsimp only; omega
        · intro hle; dsimp only; exact hbound hle
        · exact hzero
      · obtain ⟨d2, h1, h2, h3, h4⟩ := ih
          { items := st.items ++ (processItem cfg oc st.rc it).offer.toList
            fetched := st.fetched + 1
            rc := (processItem cfg oc st.rc it).rc
            fetchCalls := st.fetchCalls + (processItem cfg oc st.rc it).fetchCalls
            renderCalls := st.renderCalls + (processItem cfg oc st.rc it).renderCalls }
        dsimp only at h1 h2 h3 h4
        refine ⟨(processItem cfg oc st.rc it).renderCalls + d2, by omega, by omega, ?_, ?_⟩
        · intro hle
          exact h3 (hbound hle)
        · intro hge
          have hz := hzero hge
          have hd2 := h4 (by omega)
          omega
    · simp only [procItems, if_neg hso]
      split
      · refine ⟨(processItem cfg oc st.rc it).renderCalls, ?_, ?_, ?_, ?_⟩
        · dsimp only
        · dsimp only; omega
        · intro hle; dsimp only; exact hbound hle
        · exact hzero
      · obtain ⟨d2, h1, h2, h3, h4⟩ := ih
          { items := st.items ++ (processItem cfg oc st.rc it).offer.toList
            fetched := st.fetched + 0
            rc := (processItem cfg oc st.rc it).rc
            fetchCalls := st.fetchCalls + (processItem cfg oc st.rc it).fetchCalls
            renderCalls := st.renderCalls + (processItem cfg oc st.rc it).renderCalls }
        dsimp only at h1 h2 h3 h4
        refine ⟨(processItem cfg oc st.rc it).renderCalls + d2, by omega, by omega, ?_, ?_⟩
        · intro hle
          exact h3 (hbound hle)
        · intro hge
          have hz := hzero hge
          have hd2 := h4 (by omega)
          omega

theorem procPages_rc (cfg : Cfg) (oc : Oracles) :
    ∀ (pages : List (List Item)) (st : RunSt),
    ∃ d, (procPages cfg oc pages st).renderCalls = st.renderCalls + d
      ∧ (procPages cfg oc pages st).rc = st.rc + d
      ∧ (st.rc ≤ cfg.rend.max_js → (procPages cfg oc pages st).rc ≤ cfg.rend.max_js)
      ∧ (cfg.rend.max_js ≤ st.rc → d = 0) := by
  intro pages
  induction pages with
  | nil =>
    intro st
    exact ⟨0, by simp [procPages], by simp [procPages],
      fun h => by simpa [procPages] using h, fun _ => rfl⟩
  | cons pg rest ih =>
    intro st
    simp only [procPages]
    split
    · split
      · exact ⟨0, by simp, by simp, fun h => h, fun _ => rfl⟩
      · obtain ⟨d1, g1, g2, g3, g4⟩ := procItems_rc cfg oc pg st
        obtain ⟨d2, h1, h2, h3, h4⟩ := ih (procItems cfg oc pg st)
        refine ⟨d1 + d2, by omega, by omega, ?_, ?_⟩
        · intro hle
          exact h3 (g3 hle)
        · intro hge
          have hd1 : d1 = 0 := g4 hge
          have := h4 (by omega)
          omega
    · exact ⟨0, by simp, by simp, fun h => h, fun _ => rfl⟩

theorem search_rc (cfg : Cfg) (oc : Oracles) (pages : List (List Item)) (rc0 : Nat) :
    (search cfg oc pages rc0).rc = rc0 + (search cfg oc pages rc0).renderCalls
    ∧ (search cfg oc pages rc0).renderCalls ≤ cfg.rend.max_js
    ∧ (rc0 ≤ cfg.rend.max_js → (search cfg oc pages rc0).rc ≤ cfg.rend.max_js) := by
  obtain ⟨d, h1, h2, h3, h4⟩ := procPages_rc cfg oc pages ⟨[], 0, rc0, 0, 0⟩
  simp only at h1 h2 h3 h4
  have hcalls : (search cfg oc pages rc0).renderCalls = d := by
    simp [search, h1]
  have hrc : (search cfg oc pages rc0).rc = rc0 + d := by
    simp [search, h2]
  refine ⟨by omega, ?_, ?_⟩
  · rcases le_or_lt rc0 cfg.rend.max_js with hc | hc
    · have hh := h3 hc
      rw [h2] at hh
      omega
    · have := h4 (by omega)
      omega
  · intro hle
    have hh := h3 hle
    rw [h2] at hh
    omega

theorem dedupeStep_mem (acc : List Offer) (x o : Offer) (h : o ∈ dedupeStep acc x) :
    o ∈ acc ∨ o = x := by
  unfold dedupeStep at h
  split at h
  · obtain ⟨y, hy, hyo⟩ := List.mem_map.mp h
    by_cases hc : y.url = x.url
    · rw [if_pos hc] at hyo
      exact Or.inr hyo.symm
    · rw [if_neg hc] at hyo
      exact Or.inl (hyo ▸ hy)
  · rcases List.mem_append.mp h with h1 | h1
    · exact Or.inl h1
    · simp at h1
      exact Or.inr h1

theorem foldl_dedupe_mem (o : Offer) :
    ∀ (l acc : List Offer), o ∈ List.foldl dedupeStep acc l → o ∈ acc ∨ o ∈ l := by
  intro l
  induction l with
  | nil =>
    intro acc h2
    exact Or.inl (by simpa using h2)
  | cons x xs ih =>
    intro acc h2
    simp only [List.foldl_cons] at h2
    rcases ih (dedupeStep acc x) h2 with h1 | h1
    · rcases dedupeStep_mem acc x o h1 with h3 | h3
      · exact Or.inl h3
      · exact Or.inr (by simp [h3])
    · exact Or.inr (List.mem_cons_of_mem _ h1)

theorem dedupe_mem (l : List Offer) (o : Offer) (h : o ∈ dedupe l) : o ∈ l := by
  rcases foldl_dedupe_mem o l [] (by simpa [dedupe] using h) with h1 | h1
  · simp at h1
  · exact h1

theorem procItems_emit_mem (cfg : Cfg) (oc : Oracles) :
    ∀ (l : List Item) (st : RunSt) (o : Offer),
    o ∈ (procItems cfg oc l st).items →
    o ∈ st.items ∨ ∃ it ∈ l, ∃ rc, (processItem cfg oc rc it).offer = some o := by
  intro l
  induction l with
  | nil =>
    intro st o h
    exact Or.inl (by simpa [procItems] using h)
  | cons it rest ih =>
    intro st o h
    by_cases hso : (processItem cfg oc st.rc it).offer.isSome = true <;>
      [simp only [procItems, if_pos hso] at h;
       simp only [procItems, if_neg hso] at h] <;>
    · split at h
      · simp only [List.mem_append] at h
        rcases h with h1 | h1
        · exact Or.inl h1
        · simp only [Option.mem_toList, Option.mem_def] at h1
          exact Or.inr ⟨it, List.mem_cons_self _ _, st.rc, h1⟩
      · rcases ih _ o h with h1 | ⟨it2, hit2, rc2, h2⟩
        · simp only [List.mem_append] at h1
          rcases h1 with h2 | h2
          · exact Or.inl h2
          · simp only [Option.mem_toList, Option.mem_def] at h2
            exact Or.inr ⟨it, List.mem_cons_self _ _, st.rc, h2⟩
        · exact Or.inr ⟨it2, List.mem_cons_of_mem _ hit2, rc2, h2⟩

theorem procPages_emit_mem (cfg : Cfg) (oc : Oracles) :
    ∀ (pages : List (List Item)) (st : RunSt) (o : Offer),
    o ∈ (procPages cfg oc pages st).items →
    o ∈ st.items ∨ ∃ it, (∃ pg ∈ pages, it ∈ pg)
      ∧ ∃ rc, (processItem cfg oc rc it).offer = some o := by
  intro pages
  induction pages with
  | nil =>
    intro st o h
    exact Or.inl (by simpa [procPages] using h)
  | cons pg rest ih =>
    intro st o h
    simp only [procPages] at h
    split at h
    · split at h
      · exact Or.inl h
      · rcases ih _ o h with h1 | ⟨it, ⟨pg2, hpg2, hit⟩, rc2, h2⟩
        · rcases procItems_emit_mem cfg oc pg st o h1 with h2 | ⟨it, hit, rc2, h2⟩
          · exact Or.inl h2
          · exact Or.inr ⟨it, ⟨pg, List.mem_cons_self _ _, hit⟩, rc2, h2⟩
        · exact Or.inr ⟨it, ⟨pg2, List.mem_cons_of_mem _ hpg2, hit⟩, rc2, h2⟩
    · exact Or.inl h

theorem search_emit (cfg : Cfg) (oc : Oracles) (pages : List (List Item)) (rc0 : Nat)
    (o : Offer) (h : o ∈ (search cfg oc pages rc0).offers) :
    ∃ it, (∃ pg ∈ pages, it ∈ pg) ∧ ∃ rc, (processItem cfg oc rc it).offer = some o := by
  have h1 : o ∈ (procPages cfg oc pages ⟨[], 0, rc0, 0, 0⟩).items :=
    dedupe_mem _ o (by simpa [search] using h)
  rcases procPages_emit_mem cfg oc pages ⟨[], 0, rc0, 0, 0⟩ o h1 with h2 | h2
  · simp at h2
  · exact h2

theorem runCalls_inv (N : Nat) :
    ∀ (jobs : List (Cfg × Oracles × List (List Item))) (rc0 : Nat),
    (∀ j ∈ jobs, j.1.rend.max_js = N) → rc0 ≤ N →
    (runCalls jobs rc0).1 = rc0 + (runCalls jobs rc0).2 ∧ (runCalls jobs rc0).1 ≤ N := by
  intro jobs
  induction jobs with
  | nil =>
    intro rc0 _ h0
    exact ⟨rfl, h0⟩
  | cons j rest ih =>
    intro rc0 hN h0
    obtain ⟨cfg, oc, pgs⟩ := j
    obtain ⟨s1, s2, s3⟩ := search_rc cfg oc pgs rc0
    have hmax : cfg.rend.max_js = N := hN _ (List.mem_cons_self _ _)
    have hrcN : (search cfg oc pgs rc0).rc ≤ N := by
      rw [← hmax]
      exact s3 (by omega)
    obtain ⟨i1, i2⟩ := ih ((search cfg oc pgs rc0).rc)
      (fun j2 hj2 => hN j2 (List.mem_cons_of_mem _ hj2)) hrcN
    constructor
    · simp only [runCalls]
      omega
    · simp only [runCalls]
      omega

theorem pyEndsWith_empty (w : String) (hw : w ≠ "") : pyEndsWith "" w = false := by
  show w.data.isSuffixOf ("".data) = false
  have hne : w.data ≠ [] := by
    intro hnil
    apply hw
    cases w with
    | mk l =>
      simp only at hnil
      rw [hnil]
  unfold List.isSuffixOf
  have hrne : w.data.reverse ≠ [] := by simpa using hne
  cases hr : w.data.reverse with
  | nil => exact absurd hr hrne
  | cons c t => rfl

/-! ### Claims -/

/-- C1: for every run configured with `max_js_pages_per_run = N`, the
renderer is invoked at most N times — within a single `search` call from
any starting counter value, and across a whole run's sequence of `search`
calls starting from a fresh counter — regardless of how many candidates
remain unpriced; and every invocation attempt increments the shared render
counter regardless of whether the render succeeds: the final counter equals
the initial counter plus the exact number of attempts. -/
theorem c1_render_budget :
    (∀ (cfg : Cfg) (oc : Oracles) (pages : List (List Item)) (rc0 : Nat),
      (search cfg oc pages rc0).rc = rc0 + (search cfg oc pages rc0).renderCalls
      ∧ (search cfg oc pages rc0).renderCalls ≤ cfg.rend.max_js)
    ∧ (∀ (N : Nat) (jobs : List (Cfg × Oracles × List (List Item))),
        (∀ j ∈ jobs, j.1.rend.max_js = N) → (runCalls jobs 0).2 ≤ N) := by
  constructor
  · intro cfg oc pages rc0
    obtain ⟨h1, h2, _⟩ := search_rc cfg oc pages rc0
    exact ⟨h1, h2⟩
  · intro N jobs hN
    obtain ⟨h1, h2⟩ := runCalls_inv N jobs 0 hN (Nat.zero_le N)
    omega

/-- Witness for C1 at a concrete run: budget 1, one unpriced candidate,
renderer failing (the attempt still counts). -/
theorem c1_render_budget_witness :
    (search cfgC1 ocC1 pagesC1 0).renderCalls ≤ cfgC1.rend.max_js
    ∧ (search cfgC1 ocC1 pagesC1 0).rc = 0 + (search cfgC1 ocC1 pagesC1 0).renderCalls
    ∧ (runCalls [(cfgC1, ocC1, pagesC1)] 0).2 ≤ 1 := by
  have h := c1_render_budget
  refine ⟨(h.1 cfgC1 ocC1 pagesC1 0).2, (h.1 cfgC1 ocC1 pagesC1 0).1,
    h.2 1 [(cfgC1, ocC1, pagesC1)] ?_⟩
  intro j hj
  rw [List.mem_singleton.mp hj]
  rfl

/-- C3: reference-currency tokens pass through unchanged; euro tokens
return a converted value only when the euro-parsing flag is set and a
(nonzero) euro rate is configured, and otherwise conversion is unavailable
(`none` — never zero, never the raw value); likewise for Czech-crown
tokens; every unrecognized unit token always fails conversion. -/
theorem c3_currency_conversion (v : ℚ) (unit : String) (rates : Rates) :
    ((pyLower unit = "zł" ∨ pyLower unit = "pln") →
      _convert_to_pln v unit rates = some v)
    ∧ ((pyLower unit = "€" ∨ pyLower unit = "eur") →
        (∀ w, _convert_to_pln v unit rates = some w →
          rates.parse_eur = true ∧ ∃ r, rates.eur_to_pln = some r ∧ r ≠ 0 ∧ w = ratMul v r)
        ∧ (¬(rates.parse_eur = true ∧ rateTruthy rates.eur_to_pln = true) →
            _convert_to_pln v unit rates = none))
    ∧ ((pyLower unit = "kč" ∨ pyLower unit = "kc" ∨ pyLower unit = "czk") →
        (∀ w, _convert_to_pln v unit rates = some w →
          rates.parse_czk = true ∧ ∃ r, rates.czk_to_pln = some r ∧ r ≠ 0 ∧ w = ratMul v r)
        ∧ (¬(rates.parse_czk = true ∧ rateTruthy rates.czk_to_pln = true) →
            _convert_to_pln v unit rates = none))
    ∧ (pyLower unit ∉ (["zł", "pln", "€", "eur", "kč", "kc", "czk"] : List String) →
        _convert_to_pln v unit rates = none) := by
  refine ⟨?_, ?_, ?_, ?_⟩
  · intro h
    simp only [_convert_to_pln]
    rw [if_pos h]
  · intro h
    have hne1 : ¬(pyLower unit = "zł" ∨ pyLower unit = "pln") := by
      rcases h with h | h <;> rw [h] <;> decide
    constructor
    · intro w hw
      simp only [_convert_to_pln] at hw
      rw [if_neg hne1, if_pos h] at hw
      split at hw
      · rename_i hcond
        rw [Bool.and_eq_true] at hcond
        cases hrate : rates.eur_to_pln with
        | none => rw [hrate] at hcond; exact absurd hcond.2 (by simp [rateTruthy])
        | some r =>
          rw [hrate] at hcond hw
          refine ⟨hcond.1, r, rfl, ?_, ?_⟩
          · have := hcond.2
            simpa [rateTruthy] using this
          · simpa [Option.getD] using hw.symm
      · exact absurd hw (by simp)
    · intro hno
      simp only [_convert_to_pln]
      rw [if_neg hne1, if_pos h, if_neg]
      intro hcond
      rw [Bool.and_eq_true] at hcond
      exact hno ⟨hcond.1, hcond.2⟩
  · intro h
    have hne1 : ¬(pyLower unit = "zł" ∨ pyLower unit = "pln") := by
      rcases h with h | h | h <;> rw [h] <;> decide
    have hne2 : ¬(pyLower unit = "€" ∨ pyLower unit = "eur") := by
      rcases h with h | h | h <;> rw [h] <;> decide
    constructor
    · intro w hw
      simp only [_convert_to_pln] at hw
      rw [if_neg hne1, if_neg hne2, if_pos h] at hw
      split at hw
      · rename_i hcond
        rw [Bool.and_eq_true] at hcond
        cases hrate : rates.czk_to_pln with
        | none => rw [hrate] at hcond; exact absurd hcond.2 (by simp [rateTruthy])
        | some r =>
          rw [hrate] at hcond hw
          refine ⟨hcond.1, r, rfl, ?_, ?_⟩
          · have := hcond.2
            simpa [rateTruthy] using this
          · simpa [Option.getD] using hw.symm
      · exact absurd hw (by simp)
    · intro hno
      simp only [_convert_to_pln]
      rw [if_neg hne1, if_neg hne2, if_pos h, if_neg]
      intro hcond
      rw [Bool.and_eq_true] at hcond
      exact hno ⟨hcond.1, hcond.2⟩
  · intro h
    have hne1 : ¬(pyLower unit = "zł" ∨ pyLower unit = "pln") := by
      rintro (hc | hc) <;> exact h (by rw [hc]; decide)
    have hne2 : ¬(pyLower unit = "€" ∨ pyLower unit = "eur") := by
      rintro (hc | hc) <;> exact h (by rw [hc]; decide)
    have hne3 : ¬(pyLower unit = "kč" ∨ pyLower unit = "kc" ∨ pyLower unit = "czk") := by
      rintro (hc | hc | hc) <;> exact h (by rw [hc]; decide)
    simp only [_convert_to_pln]
    rw [if_neg hne1, if_neg hne2, if_neg hne3]

/-- Witness for C3 at concrete inputs: an upper-case reference token passes
through; a euro token with no configured rate fails; an unknown token
fails; a euro token with flag and rate 4.3 converts 100 to 430. -/
theorem c3_currency_conversion_witness :
    _convert_to_pln 5 "ZŁ" ratesC3 = some 5
    ∧ _convert_to_pln 5 "eur" ratesC3off = none
    ∧ _convert_to_pln 5 "xyz" ratesC3 = none
    ∧ _convert_to_pln 100 "EUR" ratesC3 = some 430 := by
  refine ⟨(c3_currency_conversion 5 "ZŁ" ratesC3).1 (by decide),
    ((c3_currency_conversion 5 "eur" ratesC3off).2.1 (by decide)).2 (by decide),
    (c3_currency_conversion 5 "xyz" ratesC3).2.2.2 (by decide), by decide⟩

/-- C4: "for every document, structured extraction returns the minimum"
fails as stated: on a document whose node carries the (standard JSON-LD)
list-valued `"@type": ["Product"]` — a truthy non-string tag —
websearch.py:105 raises `AttributeError` instead of returning, and the
exception propagates out of `_extract_from_jsonld` and out of `search`.
On every document on which extraction does return, it returns the minimum
of all validly converted prices collected across all structured-data
blocks, or no price exactly when nothing was collected; in particular the
199.99/149.50 reference-currency document returns 149.50. -/
theorem c4_structured_min_or_raise :
    _extract_from_jsonld [c4badBlock] ratesC4 = .error ()
    ∧ (∀ (blocks : List Json) (rates : Rates) (out : Option ℚ),
        _extract_from_jsonld blocks rates = .ok out →
        ∃ l, jsonldCollectE blocks rates = .ok l
          ∧ out = pyMin l
          ∧ (out = none ↔ l = [])
          ∧ ∀ p, out = some p → p ∈ l ∧ ∀ q ∈ l, p ≤ q)
    ∧ _extract_from_jsonld [c4block] ratesC4 = .ok (some (mkRat 1495 10))
    ∧ (mkRat 1495 10 : ℚ) = 1495 / 10 := by
  refine ⟨rfl, ?_, rfl, ?_⟩
  · intro blocks rates out h
    unfold _extract_from_jsonld at h
    cases hc : jsonldCollectE blocks rates with
    | error e =>
      rw [hc] at h
      exact Except.noConfusion h
    | ok l =>
      rw [hc] at h
      have h2 : Except.ok (ε := Unit) (pyMin l) = Except.ok out := h
      injection h2 with h2
      subst h2
      exact ⟨l, rfl, rfl, pyMin_none_iff l, fun p hp => pyMin_spec l p hp⟩
  · rw [Rat.mkRat_eq_div]
    norm_num

/-- Witness for C4 at the concrete 199.99/149.50 document: extraction
returns, the collected list is as computed, and the returned 149.50 is its
`pyMin` and one of its members. -/
theorem c4_structured_min_or_raise_witness :
    _extract_from_jsonld [c4block] ratesC4 = .ok (some (mkRat 1495 10))
    ∧ jsonldCollectE [c4block] ratesC4
        = .ok [mkRat 1495 10, mkRat 19999 100, mkRat 1495 10, mkRat 19999 100]
    ∧ some (mkRat 1495 10)
        = pyMin [mkRat 1495 10, mkRat 19999 100, mkRat 1495 10, mkRat 19999 100]
    ∧ (mkRat 1495 10 : ℚ)
        ∈ [mkRat 1495 10, mkRat 19999 100, mkRat 1495 10, mkRat 19999 100] := by
  have h := c4_structured_min_or_raise
  have hc : jsonldCollectE [c4block] ratesC4
      = .ok [mkRat 1495 10, mkRat 19999 100, mkRat 1495 10, mkRat 19999 100] := rfl
  obtain ⟨l, hl, hmin, hniff, hmem⟩ :=
    h.2.1 [c4block] ratesC4 (some (mkRat 1495 10)) h.2.2.1
  rw [hc] at hl
  injection hl with hl
  subst hl
  exact ⟨h.2.2.1, hc, hmin, (hmem _ rfl).1⟩

/-- C7 counterexample: on a node whose `price` key is *present* with value
0 while `lowPrice` is 5, the code reads `lowPrice` (Python `or` skips the
falsy present value) and collects 5, whereas the spec's "first present key
wins" rule would read `price` and collect 0 — so "the price is read from
the key `price` if that key is present" is false as stated. -/
theorem c7_first_present_counterexample :
    (getField c7node "price").isSome = true
    ∧ readOfferPrices c7node ratesC7 = [5]
    ∧ readOfferPricesSpec c7node ratesC7 = [0]
    ∧ readOfferPrices c7node ratesC7 ≠ readOfferPricesSpec c7node ratesC7 := by
  refine ⟨by decide, by decide, by decide, by decide⟩

/-- C7 amended: the price is read from the first of `price`, `lowPrice`,
`highPrice` whose value is *truthy* (non-null, nonzero, non-empty) — a
present-but-falsy key is skipped — the node contributes nothing when all
three are absent or falsy, and when no truthy currency key is present a
parsed price value is treated as already being in the reference
currency. -/
theorem c7_first_truthy_reads (fs : List (String × Json)) (rates : Rates) :
    (∀ pj, getField fs "price" = some pj → jsonTruthy pj = true →
      readOfferPrices fs rates = priceFromVal pj fs rates)
    ∧ (fieldFalsy fs "price" = true →
        ∀ pj, getField fs "lowPrice" = some pj → jsonTruthy pj = true →
        readOfferPrices fs rates = priceFromVal pj fs rates)
    ∧ (fieldFalsy fs "price" = true → fieldFalsy fs "lowPrice" = true →
        ∀ pj, getField fs "highPrice" = some pj → jsonTruthy pj = true →
        readOfferPrices fs rates = priceFromVal pj fs rates)
    ∧ (fieldFalsy fs "price" = true → fieldFalsy fs "lowPrice" = true →
        fieldFalsy fs "highPrice" = true → readOfferPrices fs rates = [])
    ∧ (∀ pj val, pyStrOfJsonToFloat pj = some val →
        fieldFalsy fs "priceCurrency" = true → fieldFalsy fs "pricecurrency" = true →
        priceFromVal pj fs rates = [val]) := by
  refine ⟨?_, ?_, ?_, ?_, ?_⟩
  · intro pj hp ht
    simp [readOfferPrices, pyOrJ, hp, ht]
  · intro hfp pj hlp ht
    cases hgp : getField fs "price" with
    | none => simp [readOfferPrices, pyOrJ, hgp, hlp, ht]
    | some p0 =>
      have hf : jsonTruthy p0 = false := by
        have := hfp
        simp only [fieldFalsy, hgp] at this
        simpa using this
      simp [readOfferPrices, pyOrJ, hgp, hf, hlp, ht]
  · intro hfp hfl pj hhp ht
    cases hgp : getField fs "price" with
    | none =>
      cases hgl : getField fs "lowPrice" with
      | none => simp [readOfferPrices, pyOrJ, hgp, hgl, hhp, ht]
      | some l0 =>
        have hf : jsonTruthy l0 = false := by
          have := hfl
          simp only [fieldFalsy, hgl] at this
          simpa using this
        simp [readOfferPrices, pyOrJ, hgp, hgl, hf, hhp, ht]
    | some p0 =>
      have hf0 : jsonTruthy p0 = false := by
        have := hfp
        simp only [fieldFalsy, hgp] at this
        simpa using this
      cases hgl : getField fs "lowPrice" with
      | none => simp [readOfferPrices, pyOrJ, hgp, hf0, hgl, hhp, ht]
      | some l0 =>
        have hf : jsonTruthy l0 = false := by
          have := hfl
          simp only [fieldFalsy, hgl] at this
          simpa using this
        simp [readOfferPrices, pyOrJ, hgp, hf0, hgl, hf, hhp, ht]
  · intro hfp hfl hfh
    cases hgp : getField fs "price" with
    | none =>
      cases hgl : getField fs "lowPrice" with
      | none =>
        cases hgh : getField fs "highPrice" with
        | none => simp [readOfferPrices, pyOrJ, hgp, hgl, hgh]
        | some h0 =>
          have hf : jsonTruthy h0 = false := by
            have := hfh
            simp only [fieldFalsy, hgh] at this
            simpa using this
          simp [readOfferPrices, pyOrJ, hgp, hgl, hgh, hf]
      | some l0 =>
        have hf : jsonTruthy l0 = false := by
          have := hfl
          simp only [fieldFalsy, hgl] at this
          simpa using this
        cases hgh : getField fs "highPrice" with
        | none => simp [readOfferPrices, pyOrJ, hgp, hgl, hf, hgh]
        | some h0 =>
          have hf2 : jsonTruthy h0 = false := by
            have := hfh
            simp only [fieldFalsy, hgh] at this
            simpa using this
          simp [readOfferPrices, pyOrJ, hgp, hgl, hf, hgh, hf2]
    | some p0 =>
      have hf0 : jsonTruthy p0 = false := by
        have := hfp
        simp only [fieldFalsy, hgp] at this
        simpa using this
      cases hgl : getField fs "lowPrice" with
      | none =>
        cases hgh : getField fs "highPrice" with
        | none => simp [readOfferPrices, pyOrJ, hgp, hf0, hgl, hgh]
        | some h0 =>
          have hf2 : jsonTruthy h0 = false := by
            have := hfh
            simp only [fieldFalsy, hgh] at this
            simpa using this
          simp [readOfferPrices, pyOrJ, hgp, hf0, hgl, hgh, hf2]
      | some l0 =>
        have hf : jsonTruthy l0 = false := by
          have := hfl
          simp only [fieldFalsy, hgl] at this
          simpa using this
        cases hgh : getField fs "highPrice" with
        | none => simp [readOfferPrices, pyOrJ, hgp, hf0, hgl, hf, hgh]
        | some h0 =>
          have hf2 : jsonTruthy h0 = false := by
            have := hfh
            simp only [fieldFalsy, hgh] at this
            simpa using this
          simp [readOfferPrices, pyOrJ, hgp, hf0, hgl, hf, hgh, hf2]
  · intro pj val hval hc1 hc2
    cases hg1 : getField fs "priceCurrency" with
    | none =>
      cases hg2 : getField fs "pricecurrency" with
      | none => simp [priceFromVal, pyOrJ, hval, hg1, hg2]
      | some c0 =>
        have hf : jsonTruthy c0 = false := by
          have := hc2
          simp only [fieldFalsy, hg2] at this
          simpa using this
        simp [priceFromVal, pyOrJ, hval, hg1, hg2, hf]
    | some c0 =>
      have hf : jsonTruthy c0 = false := by
        have := hc1
        simp only [fieldFalsy, hg1] at this
        simpa using this
      cases hg2 : getField fs "pricecurrency" with
      | none => simp [priceFromVal, pyOrJ, hval, hg1, hf, hg2]
      | some c1 =>
        have hf2 : jsonTruthy c1 = false := by
          have := hc2
          simp only [fieldFalsy, hg2] at this
          simpa using this
        simp [priceFromVal, pyOrJ, hval, hg1, hf, hg2, hf2]

/-- Witness for C7 amended at the counterexample node: `price` is falsy, so
the truthy `lowPrice` value 5 is the one read and collected. -/
theorem c7_first_truthy_reads_witness :
    readOfferPrices c7node ratesC7 = priceFromVal (Json.num 5) c7node ratesC7
    ∧ priceFromVal (Json.num 5) c7node ratesC7 = [5] := by
  have h := c7_first_truthy_reads c7node ratesC7
  exact ⟨h.2.1 (by decide) (Json.num 5) rfl (by decide), by decide⟩

/-- C8: a candidate that fails the domain filter — a non-empty allow-set
with no matching suffix, or a deny-set with a matching suffix — is rejected
before any network activity for it: the fetch collaborator is called zero
times, no offer is emitted, and no render is attempted. -/
theorem c8_domain_reject_no_fetch (cfg : Cfg) (oc : Oracles) (rc : Nat) (it : Item)
    (hrej : (cfg.whitelist ≠ [] ∧ ∀ w ∈ cfg.whitelist,
        pyEndsWith (_domain it.link) w = false)
      ∨ ∃ b ∈ cfg.blacklist, pyEndsWith (_domain it.link) b = true) :
    (processItem cfg oc rc it).fetchCalls = 0
    ∧ (processItem cfg oc rc it).offer = none
    ∧ (processItem cfg oc rc it).renderCalls = 0 := by
  by_cases hL : it.link = ""
  · simp [processItem, hL]
  · by_cases hwl : (!cfg.whitelist.isEmpty
        && cfg.whitelist.all fun w => !pyEndsWith (_domain it.link) w) = true
    · simp [processItem, hL, hwl]
    · rcases hrej with ⟨hne, hall⟩ | ⟨b, hb, hbe⟩
      · exfalso
        apply hwl
        have h1 : cfg.whitelist.isEmpty = false := by
          cases hcw : cfg.whitelist with
          | nil => exact absurd hcw hne
          | cons a t => rfl
        rw [h1]
        simp only [Bool.not_false, Bool.true_and]
        rw [List.all_eq_true]
        intro w hw
        rw [hall w hw]
        rfl
      · have hbl : (!cfg.blacklist.isEmpty
            && cfg.blacklist.any fun b2 => pyEndsWith (_domain it.link) b2) = true := by
          have h1 : cfg.blacklist.isEmpty = false := by
            cases hcw : cfg.blacklist with
            | nil => rw [hcw] at hb; simp at hb
            | cons a t => rfl
          rw [h1]
          simp only [Bool.not_false, Bool.true_and]
          rw [List.any_eq_true]
          exact ⟨b, hb, hbe⟩
        simp [processItem, hL, hwl, hbl]

/-- Witness for C8: a candidate on `evil.com` against the allow-set
`["sklep.pl"]` causes zero fetches. -/
theorem c8_domain_reject_no_fetch_witness :
    (processItem cfgC8 ocC8 0 itC8).fetchCalls = 0
    ∧ (processItem cfgC8 ocC8 0 itC8).offer = none
    ∧ (processItem cfgC8 ocC8 0 itC8).renderCalls = 0 :=
  c8_domain_reject_no_fetch cfgC8 ocC8 0 itC8 (Or.inl ⟨by decide, by decide⟩)

/-- C9: pattern extraction yields 1299.00 on `"Cena: 1 299,00 zł"` (group
separators stripped, comma decimal converted) and 644.957 on
`"149.99 EUR"` with euro parsing enabled and rate 4.3; in general it
returns the minimum converted value over all `PRICE_RE` matches, and "no
price" exactly when no match converts. -/
theorem c9_pattern_extraction :
    _extract_price_regex "Cena: 1 299,00 zł" ratesC9 = some 1299
    ∧ _extract_price_regex "149.99 EUR" ratesC9eur = some (mkRat 644957 1000)
    ∧ (mkRat 644957 1000 : ℚ) = 644957 / 1000
    ∧ ∀ (text : String) (rates : Rates),
        _extract_price_regex text rates = pyMin (regexCands text rates)
        ∧ (_extract_price_regex text rates = none ↔ regexCands text rates = [])
        ∧ ∀ p, _extract_price_regex text rates = some p →
            p ∈ regexCands text rates ∧ ∀ q ∈ regexCands text rates, p ≤ q := by
  refine ⟨by decide, by decide, ?_,
    fun text rates => ⟨rfl, pyMin_none_iff _, fun p hp => pyMin_spec _ p hp⟩⟩
  rw [Rat.mkRat_eq_div]
  norm_num

/-- Witness for C9: the extracted 1299 is a member of, and a lower bound
of, the converted candidates of the first example text. -/
theorem c9_pattern_extraction_witness :
    (1299 : ℚ) ∈ regexCands "Cena: 1 299,00 zł" ratesC9
    ∧ ∀ q ∈ regexCands "Cena: 1 299,00 zł" ratesC9, (1299 : ℚ) ≤ q := by
  have h := c9_pattern_extraction
  exact (h.2.2.2 "Cena: 1 299,00 zł" ratesC9).2.2 1299 h.1

/-- C10 counterexample: with the (non-empty) allow-set `[""]`, a candidate
whose URL has no parseable hostname — empty extracted domain — is *not*
rejected at the domain stage: every domain ends with the empty suffix, so
the pipeline proceeds to fetch the document (one fetch call). -/
theorem c10_empty_suffix_counterexample :
    cfgC10.whitelist = [""]
    ∧ _domain itC10.link = ""
    ∧ (processItem cfgC10 ocC10 0 itC10).fetchCalls = 1 := by
  refine ⟨rfl, by decide, by decide⟩

/-- C10 amended: `_domain` is total — any modeled `urlparse` exception and
any absent hostname yield `""` rather than a crash — and whenever a
non-empty domain allow-set consisting of non-empty suffixes is configured,
a candidate with an empty extracted domain is rejected at the domain-filter
stage (no fetch, no offer).  An allow-set containing the empty suffix
matches every domain, including the empty one (see the counterexample). -/
theorem c10_domain_totality :
    (∀ url, hostnameModel url = .error () → _domain url = "")
    ∧ (∀ url, hostnameModel url = .ok none → _domain url = "")
    ∧ (∀ (cfg : Cfg) (oc : Oracles) (rc : Nat) (it : Item),
        _domain it.link = "" → cfg.whitelist ≠ [] →
        (∀ w ∈ cfg.whitelist, w ≠ "") →
        (processItem cfg oc rc it).fetchCalls = 0
        ∧ (processItem cfg oc rc it).offer = none) := by
  refine ⟨?_, ?_, ?_⟩
  · intro url h
    unfold _domain
    rw [h]
  · intro url h
    unfold _domain
    rw [h]
    rfl
  · intro cfg oc rc it hdom hne hwne
    by_cases hL : it.link = ""
    · simp [processItem, hL]
    · have hwl : (!cfg.whitelist.isEmpty
          && cfg.whitelist.all fun w => !pyEndsWith (_domain it.link) w) = true := by
        have h1 : cfg.whitelist.isEmpty = false := by
          cases hcw : cfg.whitelist with
          | nil => exact absurd hcw hne
          | cons a t => rfl
        rw [h1]
        simp only [Bool.not_false, Bool.true_and]
        rw [List.all_eq_true]
        intro w hw
        rw [hdom, pyEndsWith_empty w (hwne w hw)]
        rfl
      simp [processItem, hL, hwl]

/-- Witness for C10 amended: a hostname-less URL yields domain `""` and is
rejected without a fetch against the allow-set `["sklep.pl"]`. -/
theorem c10_domain_totality_witness :
    (processItem cfgC10w ocC10 0 itC10).fetchCalls = 0
    ∧ (processItem cfgC10w ocC10 0 itC10).offer = none := by
  have h := c10_domain_totality
  exact h.2.2 cfgC10w ocC10 0 itC10 (by decide) (by decide) (by decide)

/-- C2 counterexample: a candidate with marker-free, price-free static
text is rendered; the rendered text — the document actually used for
pricing — carries a configured out-of-stock marker, yet the Offer is still
emitted (with an absent price): the code nulls the price instead of
rejecting (websearch.py:379-382 has no `continue`), so "the document text
actually used for pricing contains no configured out-of-stock marker"
fails for the render path as stated. -/
theorem c2_render_marker_counterexample :
    (search cfgC2 ocC2 pagesC2 0).offers = [offerC2]
    ∧ (processItem cfgC2 ocC2 0 itC2).usedJs = true
    ∧ ((processItem cfgC2 ocC2 0 itC2).rendered.map Doc.text) = some "brak w magazynie"
    ∧ hasMarker cfgC2.out_words "brak w magazynie" = true
    ∧ cfgC2.require_in_stock = true
    ∧ offerC2.price_pln = none := by
  exact ⟨by decide, by decide, by decide, by decide, rfl, rfl⟩

/-- C2 amended: every Offer in the output of `search` comes from a
candidate that passed the domain and path filters and the final
product-pattern check (title, static text, or rendered text), whose
document was fetched, and whose *static* text carried no configured
out-of-stock marker when in-stock was required; if a render was used and
the rendered text carries a marker, the Offer is still emitted but with an
absent price (rather than being rejected, as the claim stated). -/
theorem c2_offer_cascade (cfg : Cfg) (oc : Oracles) (pages : List (List Item)) (rc0 : Nat)
    (o : Offer) (h : o ∈ (search cfg oc pages rc0).offers) :
    ∃ it, (∃ pg ∈ pages, it ∈ pg)
      ∧ o.store = "web" ∧ o.title = htmlUnescape it.title ∧ o.url = it.link
      ∧ (cfg.whitelist ≠ [] → ∃ w ∈ cfg.whitelist, pyEndsWith (_domain it.link) w = true)
      ∧ (∀ b ∈ cfg.blacklist, pyEndsWith (_domain it.link) b = false)
      ∧ (cfg.url_wl ≠ [] → ∃ p ∈ cfg.url_wl, p it.link = true)
      ∧ (∀ p ∈ cfg.url_bl, p it.link = false)
      ∧ ∃ doc, oc.fetch it.link = some doc
        ∧ (cfg.require_in_stock = true → cfg.out_words ≠ [] →
            hasMarker cfg.out_words doc.text = false)
        ∧ (∀ p, cfg.pat = some p →
            p it.title = true ∨ p doc.text = true ∨
            ∃ rdoc, oc.render it.link = some rdoc ∧ p rdoc.text = true)
        ∧ ∃ rc, (processItem cfg oc rc it).offer = some o
          ∧ ((processItem cfg oc rc it).usedJs = true →
              ∀ rdoc, (processItem cfg oc rc it).rendered = some rdoc →
              cfg.require_in_stock = true → cfg.out_words ≠ [] →
              hasMarker cfg.out_words rdoc.text = true → o.price_pln = none) := by
  obtain ⟨it, hpg, rc, hoff⟩ := search_emit cfg oc pages rc0 o h
  obtain ⟨_, hwl, hbl, huw, hub, hst, hti, hu, doc, hf, hmk, hpat, _, hrm⟩ :=
    processItem_emit cfg oc rc it o hoff
  exact ⟨it, hpg, hst, hti, hu, hwl, hbl, huw, hub, doc, hf, hmk, hpat, rc, hoff, hrm⟩

/-- Witness for C2 amended, at the counterexample run. -/
theorem c2_offer_cascade_witness :
    ∃ it, (∃ pg ∈ pagesC2, it ∈ pg)
      ∧ offerC2.store = "web" ∧ offerC2.title = htmlUnescape it.title
      ∧ offerC2.url = it.link
      ∧ (cfgC2.whitelist ≠ [] → ∃ w ∈ cfgC2.whitelist,
          pyEndsWith (_domain it.link) w = true)
      ∧ (∀ b ∈ cfgC2.blacklist, pyEndsWith (_domain it.link) b = false)
      ∧ (cfgC2.url_wl ≠ [] → ∃ p ∈ cfgC2.url_wl, p it.link = true)
      ∧ (∀ p ∈ cfgC2.url_bl, p it.link = false)
      ∧ ∃ doc, ocC2.fetch it.link = some doc
        ∧ (cfgC2.require_in_stock = true → cfgC2.out_words ≠ [] →
            hasMarker cfgC2.out_words doc.text = false)
        ∧ (∀ p, cfgC2.pat = some p →
            p it.title = true ∨ p doc.text = true ∨
            ∃ rdoc, ocC2.render it.link = some rdoc ∧ p rdoc.text = true)
        ∧ ∃ rc, (processItem cfgC2 ocC2 rc it).offer = some offerC2
          ∧ ((processItem cfgC2 ocC2 rc it).usedJs = true →
              ∀ rdoc, (processItem cfgC2 ocC2 rc it).rendered = some rdoc →
              cfgC2.require_in_stock = true → cfgC2.out_words ≠ [] →
              hasMarker cfgC2.out_words rdoc.text = true → offerC2.price_pln = none) :=
  c2_offer_cascade cfgC2 ocC2 pagesC2 0 offerC2 (by decide)

/-- C5 counterexample: the document text `"cena 0 zł"` genuinely lists a
zero price, and the emitted Offer carries price 0 — neither a positive
number nor absent — so "the price field is either a finite positive number
or explicitly absent" is false as stated. -/
theorem c5_zero_price_counterexample :
    (search cfgC5 ocC5 pagesC5 0).offers = [⟨"web", "t", "http://z.pl/p", some 0⟩]
    ∧ ¬((0 : ℚ) < 0) := ⟨by decide, lt_irrefl 0⟩

/-- C5 amended: every Offer price in the output of `search` is either
explicitly absent (`none`) or a number actually collected from the
candidate's fetched or rendered document by the extractors — absence is
never encoded as a zero sentinel, but a zero genuinely extracted from the
document is emitted as zero. -/
theorem c5_price_provenance (cfg : Cfg) (oc : Oracles) (pages : List (List Item))
    (rc0 : Nat) (o : Offer) (h : o ∈ (search cfg oc pages rc0).offers) :
    o.price_pln = none ∨ ∃ q, o.price_pln = some q ∧ ∃ it doc,
      (∃ pg ∈ pages, it ∈ pg)
      ∧ (oc.fetch it.link = some doc ∨ oc.render it.link = some doc)
      ∧ q ∈ docPrices doc cfg.rates := by
  obtain ⟨it, hpg, rc, hoff⟩ := search_emit cfg oc pages rc0 o h
  obtain ⟨_, _, _, _, _, _, _, _, doc, hf, _, _, hpr, _⟩ :=
    processItem_emit cfg oc rc it o hoff
  cases hq : o.price_pln with
  | none => exact Or.inl rfl
  | some q =>
    rcases hpr q hq with h1 | ⟨rdoc, hrd, h2⟩
    · exact Or.inr ⟨q, rfl, it, doc, hpg, Or.inl hf, h1⟩
    · exact Or.inr ⟨q, rfl, it, rdoc, hpg, Or.inr hrd, h2⟩

/-- Witness for C5 amended, at the counterexample run: the zero price was
genuinely collected from the fetched document. -/
theorem c5_price_provenance_witness :
    (⟨"web", "t", "http://z.pl/p", some 0⟩ : Offer).price_pln = none
    ∨ ∃ q, (⟨"web", "t", "http://z.pl/p", some 0⟩ : Offer).price_pln = some q
      ∧ ∃ it doc, (∃ pg ∈ pagesC5, it ∈ pg)
        ∧ (ocC5.fetch it.link = some doc ∨ ocC5.render it.link = some doc)
        ∧ q ∈ docPrices doc cfgC5.rates :=
  c5_price_provenance cfgC5 ocC5 pagesC5 0 ⟨"web", "t", "http://z.pl/p", some 0⟩ (by decide)

/-- C6: the render counter is reset only at module import (process start),
not at the start of each run — `run_once` (main.py:49-178) and the
scheduler loop (main.py:186-196) never touch `_RENDER_COUNT`, although its
own comment calls it a per-run counter ("prosty licznik na przebieg",
websearch.py:146).  Concretely, with `max_js_pages_per_run = 1`: the first
run attempts one render and leaves the counter at 1; a second identical
run in the same process then performs zero render attempts even though its
candidate is unpriced and render-eligible and the spec promises it a fresh
budget; the two-run process totals one render attempt, not two. -/
theorem c6_counter_not_reset :
    (search cfgC6 ocC6 pagesC6 0).renderCalls = 1
    ∧ (search cfgC6 ocC6 pagesC6 0).rc = 1
    ∧ (search cfgC6 ocC6 pagesC6 ((search cfgC6 ocC6 pagesC6 0).rc)).renderCalls = 0
    ∧ (runCalls [(cfgC6, ocC6, pagesC6), (cfgC6, ocC6, pagesC6)] 0).2 = 1 := by
  exact ⟨by decide, by decide, by decide, by decide⟩

end PriceWatch
